import Mathlib

/-!
# tinygo: view templates and URL-value binding

A shallow embedding of `template.go` (package `tinygo`): the layout-chain
compiler and template store (`compileView`, `viewTemplate`,
`partialViewTemplate`, `ParseTemplate`, `ParsePartialTemplate`) and the
reflective binder `ParseUrlValueToStruct`.

Conventions of the embedding.
* Go strings are Lean strings, a Go `nil` pointer is `none`.
* The package-level map `viewsMapper` and everything the functions print,
  parse, execute or answer is threaded through an explicit `State`.
* The `for lastFile != ""` loop of `compileView` has no bound of its own; it is
  run with fuel and yields `none` when the fuel runs out.
* Collaborators that live outside `template.go` (`getViewFilePath`,
  `getLayoutFile`, `tinyConfig`, the template engine, ...) are the fields of
  `Env`.
-/

namespace Tinygo

/-! ## Paths -/

/-- The path without its trailing slashes (first loop of Go's `path.Base`). -/
def stripTrailingSlashes (cs : List Char) : List Char :=
  (cs.reverse.dropWhile (fun c => c == '/')).reverse

/-- The part after the last slash (second step of Go's `path.Base`). -/
def lastElement (cs : List Char) : List Char :=
  (cs.reverse.takeWhile (fun c => c != '/')).reverse

/-- Go's `path.Base` (and `filepath.Base` with `/` as separator): the last
element of the path, `"."` for the empty path, `"/"` for a path of slashes. -/
def Base (path : String) : String :=
  if path = "" then "."
  else
    let last := lastElement (stripTrailingSlashes path.data)
    if last = [] then "/" else String.mk last

/-! ## Environment and state of the template store -/

/-- What `os.FileInfo` tells `compileAllViews` about a file. -/
structure FileInfo where
  Name : String
  IsDir : Bool
  deriving DecidableEq, Repr

/-- Everything `template.go` uses but does not define. `T` is the type of a
non-nil `*template.Template`, `D` the type of the data handed to `Execute`. -/
structure Env (T D : Type) where
  /-- The flag `tinyConfig.precompile`. -/
  precompile : Bool
  /-- The directory `tinyConfig.view`. -/
  view : String
  /-- The calls `filepath.Walk(root, fn)` makes to `fn` when `fn` returns nil
  every time: the path and the file info (nil when the file cannot be read). -/
  walk : String → List (String × Option FileInfo)
  /-- The function `generateViewFilePath`: the view path of a file path. -/
  generateViewFilePath : String → String
  /-- The function `isLayoutFile`. -/
  isLayoutFile : String → Bool
  /-- The constant `info.DefaultTemplateExt`. -/
  DefaultTemplateExt : String
  /-- The function `getViewFilePath`: the file path of a view path. -/
  getViewFilePath : String → String
  /-- The function `getLayoutFile`: the layout of a view and whether it has one. -/
  getLayoutFile : String → String × Bool
  /-- The function `template.ParseFiles` on a non-empty list of file names. -/
  parseFiles : List String → Except String T
  /-- The method `(*Template).Lookup` on a non-nil receiver. -/
  lookup : T → String → Option T
  /-- The method `(*Template).Execute`: `none` when it returns a nil error. -/
  execute : T → D → Option String

/-- What the functions do to the outside world, in order. -/
inductive Event (T D : Type) where
  | parsed (files : List String)
  | printed (msg : String)
  | executed (tmpl : T) (data : D)
  | notFound
  deriving DecidableEq, Repr

/-- The package state: the map `viewsMapper` (a key may hold a nil template)
and the trace of events so far. -/
structure State (T D : Type) where
  viewsMapper : String → Option (Option T)
  events : List (Event T D)

/-- Append an event to the trace. -/
def State.emit {T D : Type} (s : State T D) (e : Event T D) : State T D :=
  { s with events := s.events ++ [e] }

/-! ## compileView -/

/-- The loop of `compileView` (lines 46-49): while `lastFile` is not empty,
append its file path and move to its layout. -/
def chainLoop {T D : Type} (env : Env T D) :
    Nat → String → List String → Option (List String)
  | 0, lastFile, pathSlice => if lastFile = "" then some pathSlice else none
  | fuel + 1, lastFile, pathSlice =>
    if lastFile = "" then some pathSlice
    else chainLoop env fuel (env.getLayoutFile lastFile).1
      (pathSlice ++ [env.getViewFilePath lastFile])

/-- The call `template.ParseFiles(filenames...)`: an error when no file is
named, the engine's answer otherwise. -/
def ParseFiles {T D : Type} (env : Env T D) (filenames : List String) : Except String T :=
  match filenames with
  | [] => .error "html/template: no files named in call to ParseFiles"
  | _ :: _ => env.parseFiles filenames

/-- The function `compileView`: `.error err` stands for `(nil, err)` and
`.ok tmpl` for `(tmpl, nil)`. -/
def compileView {T D : Type} (env : Env T D) (fuel : Nat) (filePath : String)
    (s : State T D) : Option (Except String (Option T) × State T D) :=
  match chainLoop env fuel filePath [] with
  | none => none
  | some pathSlice =>
    let s1 := s.emit (.parsed pathSlice)
    match ParseFiles env pathSlice with
    | .error err => some (.error err, s1)
    | .ok tmpl =>
      let name := Base (pathSlice.getLast?.getD "")
      some (.ok (env.lookup tmpl name), s1)

/-! ## viewTemplate and partialViewTemplate -/

/-- The function `viewTemplate`. -/
def viewTemplate {T D : Type} (env : Env T D) (fuel : Nat) (filePath : String)
    (s : State T D) : Option (Option T × State T D) :=
  match s.viewsMapper filePath with
  | some tmpl => some (tmpl, s)
  | none =>
    match compileView env fuel filePath s with
    | none => none
    | some (.error err, s1) => some (none, s1.emit (.printed err))
    | some (.ok tmpl, s1) => some (tmpl, s1)

/-- The result of a call that dereferences its receiver. -/
inductive Ret (T : Type) where
  | value (tmpl : Option T)
  | nilDeref
  deriving DecidableEq, Repr

/-- The call `tmpl.Lookup(name)` on a possibly nil receiver. -/
def Lookup {T D : Type} (env : Env T D) (tmpl : Option T) (name : String) : Ret T :=
  match tmpl with
  | none => .nilDeref
  | some t => .value (env.lookup t name)

/-- The function `partialViewTemplate`. -/
def partialViewTemplate {T D : Type} (env : Env T D) (fuel : Nat) (filePath : String)
    (s : State T D) : Option (Ret T × State T D) :=
  match s.viewsMapper filePath with
  | some tmpl => some (Lookup env tmpl (Base filePath), s)
  | none =>
    match compileView env fuel filePath s with
    | none => none
    | some (.error err, s1) => some (.value none, s1.emit (.printed err))
    | some (.ok tmpl, s1) => some (Lookup env tmpl (Base filePath), s1)

/-! ## ParseTemplate -/

/-- The function `ParseTemplate`; `HttpNotFound(w, r)` is the event `notFound`. -/
def ParseTemplate {T D : Type} (env : Env T D) (fuel : Nat) (path : String) (data : D)
    (s : State T D) : Option (State T D) :=
  match viewTemplate env fuel path s with
  | none => none
  | some (none, s1) => some s1
  | some (some tmpl, s1) =>
    let s2 := s1.emit (.executed tmpl data)
    match env.execute tmpl data with
    | none => some s2
    | some err => some ((s2.emit (.printed err)).emit .notFound)

/-! ## ParsePartialTemplate -/

/-- The function `ParsePartialTemplate`: the state after the call and whether
the call panicked on a nil template inside `partialViewTemplate`. -/
def ParsePartialTemplate {T D : Type} (env : Env T D) (fuel : Nat) (path : String) (data : D)
    (s : State T D) : Option (State T D × Bool) :=
  match partialViewTemplate env fuel path s with
  | none => none
  | some (.nilDeref, s1) => some (s1, true)
  | some (.value none, s1) => some (s1, false)
  | some (.value (some tmpl), s1) =>
    let tmpl := match env.lookup tmpl "Content" with
      | some content => content
      | none => tmpl
    let s2 := s1.emit (.executed tmpl data)
    match env.execute tmpl data with
    | none => some (s2, false)
    | some err => some ((s2.emit (.printed err)).emit .notFound, false)

/-! ## compileAllViews -/

/-- Go's `path.Ext`: the suffix of the last element of the path that starts at
its last dot, `""` when that element has no dot. -/
def Ext (path : String) : String :=
  let last := lastElement path.data
  if last.contains '.' then
    String.mk ('.' :: (last.reverse.takeWhile (fun c => c != '.')).reverse)
  else ""

/-- The assignment `viewsMapper[filePath] = tmpl`. -/
def State.store {T D : Type} (s : State T D) (filePath : String) (tmpl : Option T) :
    State T D :=
  { s with viewsMapper := fun key => if key = filePath then some tmpl else s.viewsMapper key }

/-- The view path that a visited path is compiled under, if any: the guards of
lines 25 and 27. -/
def viewOf {T D : Type} (env : Env T D) (entry : String × Option FileInfo) : Option String :=
  match entry.2 with
  | none => none
  | some fileInfo =>
    if !fileInfo.IsDir && Ext fileInfo.Name == env.DefaultTemplateExt then
      if !env.isLayoutFile (env.generateViewFilePath entry.1) then
        some (env.generateViewFilePath entry.1)
      else none
    else none

/-- The function literal that `compileAllViews` hands to `filepath.Walk`
(lines 24-37), on one visited path. -/
def walkFn {T D : Type} (env : Env T D) (fuel : Nat) (entry : String × Option FileInfo)
    (s : State T D) : Option (State T D) :=
  match entry.2 with
  | none => some s
  | some fileInfo =>
    if !fileInfo.IsDir && Ext fileInfo.Name == env.DefaultTemplateExt then
      let filePath := env.generateViewFilePath entry.1
      if !env.isLayoutFile filePath then
        match compileView env fuel filePath s with
        | none => none
        | some (.ok tmpl, s1) => some (s1.store filePath tmpl)
        | some (.error err, s1) => some (s1.emit (.printed err))
      else some s
    else some s

/-- The walk: `walkFn` on every visited path, in order. -/
def walkAll {T D : Type} (env : Env T D) (fuel : Nat) :
    List (String × Option FileInfo) → State T D → Option (State T D)
  | [], s => some s
  | entry :: rest, s =>
    match walkFn env fuel entry s with
    | none => none
    | some s1 => walkAll env fuel rest s1

/-- The function `compileAllViews`. -/
def compileAllViews {T D : Type} (env : Env T D) (fuel : Nat) (s : State T D) :
    Option (State T D) :=
  if env.precompile then walkAll env fuel (env.walk env.view) s else some s

/-! ## strconv -/

/-- The two errors of package `strconv`. -/
inductive NumError where
  | ErrSyntax
  | ErrRange
  deriving DecidableEq, Repr

/-- The width of Go's `int` and `uint` (`strconv.IntSize`) on a 64-bit target. -/
def intSize : Nat := 64

/-- Go's `strconv.ParseBool`: the value and the error. -/
def ParseBool (str : String) : Bool × Option NumError :=
  if str = "1" ∨ str = "t" ∨ str = "T" ∨ str = "true" ∨ str = "TRUE" ∨ str = "True" then
    (true, none)
  else if str = "0" ∨ str = "f" ∨ str = "F" ∨ str = "false" ∨ str = "FALSE" ∨ str = "False" then
    (false, none)
  else (false, some .ErrSyntax)

/-- The digit loop of `strconv.ParseUint` in base 10: `n` is the number read so
far, `maxVal` the largest value of the bit size. A character that is not a
decimal digit is a syntax error; a number above `maxVal` is a range error
reported with `maxVal`. -/
def parseUintLoop (maxVal : Nat) : List Char → Nat → Nat × Option NumError
  | [], n => (n, none)
  | c :: cs, n =>
    if '0' ≤ c ∧ c ≤ '9' then
      if n ≥ (2 ^ 64 - 1) / 10 + 1 then (maxVal, some .ErrRange)
      else
        let n1 := n * 10 + (c.toNat - '0'.toNat)
        if n1 > maxVal then (maxVal, some .ErrRange)
        else parseUintLoop maxVal cs n1
    else (0, some .ErrSyntax)

/-- Go's `strconv.ParseUint(s, 10, bitSize)` for `0 < bitSize ≤ 64`. -/
def ParseUint (s : List Char) (bitSize : Nat) : Nat × Option NumError :=
  match s with
  | [] => (0, some .ErrSyntax)
  | _ :: _ => parseUintLoop (2 ^ bitSize - 1) s 0

/-- Go's `strconv.ParseInt(s, 10, bitSize)` for `0 < bitSize ≤ 64`: an optional
sign and an unsigned number; out of range, the nearest bound comes with
`ErrRange`. -/
def ParseInt (s : List Char) (bitSize : Nat) : Int × Option NumError :=
  match s with
  | [] => (0, some .ErrSyntax)
  | c :: cs =>
    let neg := c == '-'
    let rest := if c = '+' ∨ c = '-' then cs else s
    let r := ParseUint rest bitSize
    if r.2 = some .ErrSyntax then (0, some .ErrSyntax)
    else
      let cutoff : Nat := 2 ^ (bitSize - 1)
      if !neg && decide (r.1 ≥ cutoff) then (((cutoff - 1 : Nat) : Int), some .ErrRange)
      else if neg && decide (r.1 > cutoff) then (-(cutoff : Int), some .ErrRange)
      else (if neg then -(r.1 : Int) else (r.1 : Int), none)

/-- Go's `strconv.Atoi`: `ParseInt(s, 10, 0)` converted to `int` (the fast path
for short strings computes the same). -/
def Atoi (s : String) : Int × Option NumError :=
  ParseInt s.data intSize

/-! ## Reflected values -/

/-- The signed integer kinds of package `reflect`. -/
inductive IntKind where
  | Int | Int8 | Int16 | Int32 | Int64
  deriving DecidableEq, Repr

/-- The unsigned integer kinds that `ParseUrlValueToStruct` lists
(`reflect.Uintptr` is not among them). -/
inductive UintKind where
  | Uint | Uint8 | Uint16 | Uint32 | Uint64
  deriving DecidableEq, Repr

/-- The floating-point kinds. -/
inductive FloatKind where
  | Float32 | Float64
  deriving DecidableEq, Repr

/-- The kinds that have no case in the `switch` of `ParseUrlValueToStruct`. A
slice kind here is a slice whose type is neither `[]int` nor `[]string`. -/
inductive OtherKind where
  | Uintptr | Complex64 | Complex128 | Array | Chan | Func | Map | Ptr | Slice | RawPointer
  deriving DecidableEq, Repr

/-- The width in bits of a signed integer kind. -/
def IntKind.bits : IntKind → Nat
  | .Int => intSize
  | .Int8 => 8
  | .Int16 => 16
  | .Int32 => 32
  | .Int64 => 64

/-- The width in bits of an unsigned integer kind. -/
def UintKind.bits : UintKind → Nat
  | .Uint => intSize
  | .Uint8 => 8
  | .Uint16 => 16
  | .Uint32 => 32
  | .Uint64 => 64

/-- The dynamic value held by an interface: nil, a string, or anything else
(identified by a number). -/
inductive Dyn where
  | null
  | str (s : String)
  | any (id : Nat)
  deriving DecidableEq, Repr

/-- What `reflect` tells about field `i` of a struct: `value.Type().Field(i)`
together with the flags of `value.Field(i)`. The two tag entries are the
results of `Tag.Get("from")` and `Tag.Get("to")`. -/
structure StructField where
  Name : String
  Anonymous : Bool
  tagFrom : String
  tagTo : String
  CanSet : Bool
  CanInterface : Bool
  deriving DecidableEq, Repr

/-- A Go value as `reflect` sees it, by the kind of its type. A slice is the
list of its elements (a nil slice is the empty list). A float is its IEEE bit
pattern, a `time.Time` an instant given by a number. `struct` is every struct
type other than the real `time.Time`, with the result of `Type.String()`;
`iface` carries `NumMethod()` of the interface type. -/
inductive Value where
  | bool (b : Bool)
  | int (k : IntKind) (n : Int)
  | uint (k : UintKind) (n : Nat)
  | float (k : FloatKind) (bits : Nat)
  | iface (numMethod : Nat) (dyn : Dyn)
  | string (s : String)
  | time (t : Int)
  | struct (typeString : String) (fields : List (StructField × Value))
  | intSlice (xs : List Int)
  | stringSlice (xs : List String)
  | other (k : OtherKind) (id : Nat)
  deriving Repr

/-- The functions of the standard library that are taken as given:
`strconv.ParseFloat(s, 64)` (the bits of the result when the error is nil), the
conversion `float32(x)` on bit patterns, and `time.Parse(layout, value)` (the
instant when the error is nil). -/
structure Lib where
  parseFloat : String → Option Nat
  toFloat32 : Nat → Nat
  parseTime : String → String → Option Int

/-- The type `url.Values`, a `map[string][]string`: `none` for an absent key. -/
abbrev Values := String → Option (List String)

/-- The method `url.Values.Get`: the first value of the key, or `""`. -/
def Values.Get (v : Values) (key : String) : String :=
  match v key with
  | some (x :: _) => x
  | _ => ""

/-- The index expression `urlValues[key]`: all values of the key, nil when the
key is absent. -/
def Values.index (v : Values) (key : String) : List String :=
  (v key).getD []

/-- The conversion `intN(x)` of an `int64`: reduction to `bits` bits in two's
complement. -/
def wrapInt (bits : Nat) (x : Int) : Int :=
  (x + 2 ^ (bits - 1)) % 2 ^ bits - 2 ^ (bits - 1)

/-- The method `reflect.Value.SetInt` on a field of kind `k`. -/
def SetInt (k : IntKind) (x : Int) : Value :=
  .int k (wrapInt k.bits x)

/-- The method `reflect.Value.SetUint` on a field of kind `k`. -/
def SetUint (k : UintKind) (x : Nat) : Value :=
  .uint k (x % 2 ^ k.bits)

/-- The method `reflect.Value.SetFloat` on a field of kind `k`. -/
def SetFloat (lib : Lib) (k : FloatKind) (bits : Nat) : Value :=
  match k with
  | .Float32 => .float k (lib.toFloat32 bits)
  | .Float64 => .float k bits

/-! ## ParseUrlValueToStruct -/

/-- The `switch fieldType.Type.Kind()` of lines 174-225 for a field named
`fieldName` in the bag; `none` is a panic of `reflect.Value.Set` (the value is
not assignable to the field's type). -/
def coerce (lib : Lib) (urlValues : Values) (fieldName : String) (fieldValue : Value) :
    Option Value :=
  let urlValue := urlValues.Get fieldName
  match fieldValue with
  | .bool _ =>
    let r := ParseBool urlValue
    some (.bool (r.1 && r.2.isNone))
  | .int k _ =>
    let r := ParseInt urlValue.data 64
    if r.2 = none then some (SetInt k r.1) else some (SetInt k 0)
  | .uint k _ =>
    let r := ParseUint urlValue.data 64
    if r.2 = none then some (SetUint k r.1) else some (SetUint k 0)
  | .float k _ =>
    match lib.parseFloat urlValue with
    | some bits => some (SetFloat lib k bits)
    | none => some (SetFloat lib k 0)
  | .iface numMethod _ =>
    if numMethod = 0 then some (.iface numMethod (.str urlValue)) else none
  | .string _ => some (.string urlValue)
  | .time t =>
    match lib.parseTime "2006-01-02 15:04:05" urlValue with
    | some result => some (.time result)
    | none => some (.time t)
  | .struct typeString fields =>
    if typeString = "time.Time" then
      match lib.parseTime "2006-01-02 15:04:05" urlValue with
      | some _ => none
      | none => some (.struct typeString fields)
    else some (.struct typeString fields)
  | .intSlice _ => some (.intSlice ((urlValues.index fieldName).map (fun s => (Atoi s).1)))
  | .stringSlice _ => some (.stringSlice (urlValues.index fieldName))
  | .other k id => some (.other k id)

/-- The name under which a bound field is looked up in the bag (lines 164-172):
the `from` tag, or the name of the field when the tag is empty. -/
def sourceName (fieldType : StructField) : String :=
  if fieldType.tagFrom = "" then fieldType.Name else fieldType.tagFrom

/-- The body of the loop for a field that is not anonymous (lines 163-226):
nothing for a field that cannot be set or is tagged `-`. -/
def setField (lib : Lib) (urlValues : Values) (fieldType : StructField) (fieldValue : Value) :
    Option Value :=
  if fieldType.CanSet then
    if fieldType.tagFrom = "-" then some fieldValue
    else coerce lib urlValues (sourceName fieldType) fieldValue
  else some fieldValue

mutual
/-- The function `ParseUrlValueToStruct`: the value after the call, and whether
the call panicked (the fields written before the panic stay written). The
fields of the real `time.Time` are unexported and not anonymous, so the walk
over them writes nothing. -/
def ParseUrlValueToStruct (lib : Lib) (urlValues : Values) : Value → Value × Bool
  | .struct typeString fields =>
    let r := parseFields lib urlValues fields
    (.struct typeString r.1, r.2)
  | value => (value, false)
/-- The loop `for i := 0; i < value.NumField(); i++` over the fields that are
left. -/
def parseFields (lib : Lib) (urlValues : Values) :
    List (StructField × Value) → List (StructField × Value) × Bool
  | [] => ([], false)
  | (fieldType, fieldValue) :: rest =>
    let r : Value × Bool :=
      if fieldType.Anonymous then ParseUrlValueToStruct lib urlValues fieldValue
      else
        match setField lib urlValues fieldType fieldValue with
        | some v => (v, false)
        | none => (fieldValue, true)
    if r.2 then ((fieldType, r.1) :: rest, true)
    else
      let rs := parseFields lib urlValues rest
      ((fieldType, r.1) :: rs.1, rs.2)
end

/-- One turn of the loop of `ParseUrlValueToStruct` on the field `p`: the new
value of the field and whether the turn panicked. -/
def fieldStep (lib : Lib) (urlValues : Values) (p : StructField × Value) : Value × Bool :=
  if p.1.Anonymous then ParseUrlValueToStruct lib urlValues p.2
  else
    match setField lib urlValues p.1 p.2 with
    | some v => (v, false)
    | none => (p.2, true)

/-- Whether the `switch` of lines 174-225 has no case for the value: a kind
that is not listed, or a struct whose `Type.String()` is not `"time.Time"`. -/
def unhandled (fieldValue : Value) : Bool :=
  match fieldValue with
  | .other _ _ => true
  | .struct typeString _ => typeString != "time.Time"
  | _ => false

/-- Whether `reflect.Value.Set` can panic on a named field with this value:
the field has an interface type with methods, which a string does not
implement, or a struct type that is printed `time.Time`. -/
def canPanic (fieldValue : Value) : Bool :=
  match fieldValue with
  | .iface numMethod _ => numMethod != 0
  | .struct typeString _ => typeString == "time.Time"
  | _ => false

mutual
/-- Whether the value has, at any depth through its anonymous fields, no named
field on which `reflect.Value.Set` can panic. -/
def panicFree : Value → Bool
  | .struct _ fields => fieldsPanicFree fields
  | _ => true
/-- Whether the list has, at any depth through anonymous fields, no named
field on which `reflect.Value.Set` can panic. -/
def fieldsPanicFree : List (StructField × Value) → Bool
  | [] => true
  | (fieldType, fieldValue) :: rest =>
    (if fieldType.Anonymous then panicFree fieldValue else !canPanic fieldValue)
      && fieldsPanicFree rest
end

/-- The pair of `value.Type().Field(i)` and `value.Field(i)` of a struct. -/
def Value.field (value : Value) (i : Nat) : Option (StructField × Value) :=
  match value with
  | .struct _ fields => fields[i]?
  | _ => none

/-! ## mapStructToMap -/

/-- The type `map[interface{}]interface{}` of a map that has been made: the
value under each key, `none` for an absent key. -/
abbrev DataMap := Dyn → Option Value

/-- The assignment `data[key] = value`. -/
def DataMap.set (data : DataMap) (key : Dyn) (value : Value) : DataMap :=
  fun k => if k = key then some value else data k

/-- The key of a named field in the map (lines 139-142): the `to` tag, or the
name of the field when the tag is empty. -/
def targetName (fieldType : StructField) : String :=
  if fieldType.tagTo = "" then fieldType.Name else fieldType.tagTo

mutual
/-- The function `mapStructToMap`: the map after the call. -/
def mapStructToMap : Value → DataMap → DataMap
  | .struct _ fields, data => mapFields fields data
  | _, data => data
/-- The loop of `mapStructToMap` over the fields that are left. -/
def mapFields : List (StructField × Value) → DataMap → DataMap
  | [], data => data
  | (fieldType, fieldValue) :: rest, data =>
    if fieldType.CanInterface then
      if fieldType.Anonymous then mapFields rest (mapStructToMap fieldValue data)
      else mapFields rest (data.set (.str (targetName fieldType)) fieldValue)
    else mapFields rest data
end

mutual
/-- The assignments that the description of `mapStructToMap` lists: one per
named field that can be interfaced, in declaration order, descending into
every anonymous struct field. -/
def describedEntries : Value → List (String × Value)
  | .struct _ fields => describedFieldEntries fields
  | _ => []
/-- The assignments of a list of fields, as described. -/
def describedFieldEntries : List (StructField × Value) → List (String × Value)
  | [] => []
  | (fieldType, fieldValue) :: rest =>
    if fieldType.Anonymous then describedEntries fieldValue ++ describedFieldEntries rest
    else if fieldType.CanInterface then
      (targetName fieldType, fieldValue) :: describedFieldEntries rest
    else describedFieldEntries rest
end

mutual
/-- The assignments of the description, descending only into the anonymous
struct fields that can be interfaced. -/
def interfacedEntries : Value → List (String × Value)
  | .struct _ fields => interfacedFieldEntries fields
  | _ => []
/-- The assignments of a list of fields, descending only into the anonymous
fields that can be interfaced. -/
def interfacedFieldEntries : List (StructField × Value) → List (String × Value)
  | [] => []
  | (fieldType, fieldValue) :: rest =>
    if fieldType.CanInterface then
      if fieldType.Anonymous then interfacedEntries fieldValue ++ interfacedFieldEntries rest
      else (targetName fieldType, fieldValue) :: interfacedFieldEntries rest
    else interfacedFieldEntries rest
end

mutual
/-- Whether every anonymous field in the value, at any depth, can be
interfaced. -/
def embedsInterfaced : Value → Bool
  | .struct _ fields => fieldsEmbedInterfaced fields
  | _ => true
/-- Whether every anonymous field in the list, at any depth, can be
interfaced. -/
def fieldsEmbedInterfaced : List (StructField × Value) → Bool
  | [] => true
  | (fieldType, fieldValue) :: rest =>
    (if fieldType.Anonymous then fieldType.CanInterface && embedsInterfaced fieldValue
      else true) && fieldsEmbedInterfaced rest
end

/-- The map after the assignments `key -> value` of a list, in order. -/
def assignAll (entries : List (String × Value)) (data : DataMap) : DataMap :=
  entries.foldl (fun d e => d.set (.str e.1) e.2) data

/-! ## Decimal numerals -/

/-- The number written by a string of decimal digits, after the digits that
gave `n`. -/
def decimalValue : List Char → Nat → Nat
  | [], n => n
  | c :: cs, n => decimalValue cs (n * 10 + (c.toNat - '0'.toNat))

/-- Whether every character is a decimal digit. -/
def allDigits (cs : List Char) : Bool :=
  cs.all (fun c => decide ('0' ≤ c ∧ c ≤ '9'))

/-! ## A concrete view tree -/

/-- A view tree with the chain `c.html`, its layout `b.html` and the layout
`a.html` of that; a template is its name, every file name can be looked up,
`Content` is defined in `page.html` only, only `bad.html` fails to execute and
only `missing.html` fails to parse. -/
def demoEnv : Env String Unit where
  precompile := true
  view := "views"
  walk := fun root =>
    [ (root, some ⟨"views", true⟩),
      (root ++ "/a.html", some ⟨"a.html", false⟩),
      (root ++ "/b.html", some ⟨"b.html", false⟩),
      (root ++ "/c.html", some ⟨"c.html", false⟩),
      (root ++ "/gone.html", none),
      (root ++ "/missing.html", some ⟨"missing.html", false⟩),
      (root ++ "/notes.txt", some ⟨"notes.txt", false⟩) ]
  generateViewFilePath := fun filePath => String.mk (filePath.data.drop 6)
  isLayoutFile := fun filePath => filePath == "a.html" || filePath == "b.html"
  DefaultTemplateExt := ".html"
  getViewFilePath := fun f => "views/" ++ f
  getLayoutFile := fun f =>
    if f = "c.html" then ("b.html", true)
    else if f = "b.html" then ("a.html", true)
    else ("", false)
  parseFiles := fun files =>
    if files.contains "views/missing.html" then
      .error "open views/missing.html: no such file or directory"
    else .ok (Base (files.headD ""))
  lookup := fun tmpl name =>
    if name = "Content" then (if tmpl = "page.html" then some "Content" else none)
    else some name
  execute := fun t _ => if t = "bad.html" then some "execution failed" else none

/-- The state with an empty store and no events. -/
def emptyState : State String Unit :=
  ⟨fun _ => none, []⟩

/-- The state in which `c.html` has been compiled and stored. -/
def warmState : State String Unit :=
  emptyState.store "c.html" (some "a.html")

/-! ## A concrete binding target -/

/-- A library in which no float and no time parses. -/
def demoLib : Lib :=
  ⟨fun _ => none, fun bits => bits, fun _ _ => none⟩

/-- A library in which only `2006-01-02 15:04:05` parses as a time, under the
layout `2006-01-02 15:04:05`, to the instant 1136214245. -/
def timeLib : Lib :=
  ⟨fun _ => none, fun bits => bits,
    fun layout value =>
      if layout = "2006-01-02 15:04:05" ∧ value = "2006-01-02 15:04:05" then some 1136214245
      else none⟩

/-- A named field that can be set, with its `from` tag. -/
def demoField (name tag : String) : StructField :=
  ⟨name, false, tag, "", true, true⟩

/-- The bag `n=300&n=7&nums=1&nums=x&nums=3&big=99999999999999999999&ok=true&-=1`
with `at=2006-01-02 15:04:05`, `Time=2006-01-02 15:04:05`, `small=256`,
`minus=-1` and `plus=+5`. -/
def demoBag : Values := fun key =>
  if key = "n" then some ["300", "7"]
  else if key = "nums" then some ["1", "x", "3"]
  else if key = "big" then some ["99999999999999999999"]
  else if key = "ok" then some ["true"]
  else if key = "-" then some ["1"]
  else if key = "at" then some ["2006-01-02 15:04:05"]
  else if key = "Time" then some ["2006-01-02 15:04:05"]
  else if key = "small" then some ["256"]
  else if key = "minus" then some ["-1"]
  else if key = "plus" then some ["+5"]
  else none

/-- A struct with the unexported embedded struct `inner` (its exported field
`X` can be interfaced, the embedded field itself cannot), the named field `Id`
with the `to` tag `id`, and the embedded struct `Base` with a field `Id`. -/
def demoMapped : Value :=
  .struct "main.Page"
    [ (⟨"inner", true, "", "", false, false⟩,
        .struct "main.inner" [(⟨"X", false, "", "", true, true⟩, .int .Int 1)]),
      (⟨"Id", false, "", "id", true, true⟩, .int .Int 2),
      (⟨"Base", true, "", "", true, true⟩,
        .struct "main.Base" [(⟨"Id", false, "", "id", true, true⟩, .int .Int 3),
          (⟨"secret", false, "", "", false, false⟩, .string "s")]) ]

/-- Four named fields: an unexported string, a map, a struct of another type,
and a string that can be set. -/
def demoOpaqueFields : List (StructField × Value) :=
  [ (⟨"hidden", false, "n", "", false, false⟩, .string "keep"),
    (demoField "Index" "n", .other .Map 4),
    (demoField "Point" "n", .struct "image.Point" [(demoField "X" "n", .int .Int 1)]),
    (demoField "Name" "n", .string "old") ]

/-- A struct with the fields `demoOpaqueFields`. -/
def demoOpaque : Value :=
  .struct "main.Opaque" demoOpaqueFields

/-- A struct with a map and a field of an interface type with one method, both
named and both settable. -/
def demoPanics : Value :=
  .struct "main.Shown"
    [ (demoField "Index" "n", .other .Map 4),
      (demoField "Text" "n", .iface 1 .null) ]

/-- A struct with an `int8` field bound from `small` and two `uint8` fields
bound from `minus` and `plus`. -/
def demoNarrow : Value :=
  .struct "main.Narrow"
    [ (demoField "A" "small", .int .Int8 9),
      (demoField "B" "minus", .uint .Uint8 9),
      (demoField "C" "plus", .uint .Uint8 9) ]

/-- A struct that embeds `time.Time`, holding the instant 7. -/
def demoStamped : Value :=
  .struct "main.Stamped" [(⟨"Time", true, "", "", true, true⟩, .time 7)]

/-- The empty map. -/
def emptyData : DataMap := fun _ => none

/-- A struct that embeds `main.Inner` and has one field of each kind used
below. -/
def demoStruct : Value :=
  .struct "main.Outer"
    [ (demoField "Small" "n", .int .Int8 5),
      (demoField "Wide" "n", .int .Int64 5),
      (demoField "Nums" "nums", .intSlice [9]),
      (demoField "Big" "big", .intSlice []),
      (demoField "Ok" "ok", .bool false),
      (demoField "Skipped" "-", .int .Int64 8),
      (demoField "Ids" "", .intSlice [1, 2, 3]),
      (demoField "Tags" "", .stringSlice ["a"]),
      (⟨"Inner", true, "", "", true, true⟩,
        .struct "main.Inner" [(demoField "N" "n", .int .Int16 1)]) ]

/-! # Theorems

## The layout chain -/

theorem chainLoop_empty {T D : Type} (env : Env T D) (fuel : Nat) (acc : List String) :
    chainLoop env fuel "" acc = some acc := by
  cases fuel <;> simp [chainLoop]

theorem chainLoop_step {T D : Type} (env : Env T D) (fuel : Nat) (f : String)
    (acc : List String) (hf : f ≠ "") :
    chainLoop env (fuel + 1) f acc
      = chainLoop env fuel (env.getLayoutFile f).1 (acc ++ [env.getViewFilePath f]) := by
  simp [chainLoop, hf]

/-- Along a chain of layouts that ends in a file without layout, the loop
appends the file paths in the order of the walk, the view first. -/
theorem chainLoop_chain {T D : Type} (env : Env T D) :
    ∀ (rest : List String) (v root : String) (acc : List String) (fuel : Nat),
      List.Chain (fun a b => (env.getLayoutFile a).1 = b) v rest →
      (∀ f ∈ v :: rest, f ≠ "") →
      (v :: rest).getLast? = some root →
      (env.getLayoutFile root).1 = "" →
      rest.length + 1 ≤ fuel →
      chainLoop env fuel v acc = some (acc ++ (v :: rest).map env.getViewFilePath) := by
  intro rest
  induction rest with
  | nil =>
    intro v root acc fuel _ hne hlast hroot hfuel
    obtain ⟨n, rfl⟩ : ∃ n, fuel = n + 1 := ⟨fuel - 1, by simp at hfuel; omega⟩
    have hv : v ≠ "" := hne v (by simp)
    simp at hlast
    subst hlast
    rw [chainLoop_step env n v acc hv, hroot, chainLoop_empty]
    simp
  | cons p rest ih =>
    intro v root acc fuel hchain hne hlast hroot hfuel
    obtain ⟨n, rfl⟩ : ∃ n, fuel = n + 1 := ⟨fuel - 1, by simp at hfuel; omega⟩
    have hv : v ≠ "" := hne v (by simp)
    rw [List.chain_cons] at hchain
    obtain ⟨hvp, hrest⟩ := hchain
    have hlast2 : (p :: rest).getLast? = some root := by
      rw [List.getLast?_cons_cons] at hlast
      exact hlast
    rw [chainLoop_step env n v acc hv, hvp,
      ih p root (acc ++ [env.getViewFilePath v]) n hrest
        (fun f hf => hne f (List.mem_cons_of_mem _ hf)) hlast2 hroot
        (by simp at hfuel ⊢; omega)]
    simp

/-- The function `compileView` in one equation: the chain, one parse of it,
and the lookup under the base name of the last file of the chain. -/
theorem compileView_eq {T D : Type} (env : Env T D) (fuel : Nat) (filePath : String)
    (s : State T D) (files : List String)
    (h : chainLoop env fuel filePath [] = some files) :
    compileView env fuel filePath s
      = some ((match ParseFiles env files with
          | .error err => .error err
          | .ok tmpl => .ok (env.lookup tmpl (Base (files.getLast?.getD "")))),
          s.emit (.parsed files)) := by
  unfold compileView
  rw [h]
  dsimp only
  cases ParseFiles env files <;> rfl

/-- C1 (amended): along a finite layout chain `v :: rest` that ends in the
root-most layout `root`, `compileView` hands the parser the file paths in the
order of the walk: the requested view first and the root-most layout last. For
a view `v` with layout `p` and no further layout the list is `[path v, path p]`. -/
theorem compileView_parse_order {T D : Type} (env : Env T D) (v root : String)
    (rest : List String) (fuel : Nat) (s : State T D)
    (hchain : List.Chain (fun a b => (env.getLayoutFile a).1 = b) v rest)
    (hne : ∀ f ∈ v :: rest, f ≠ "")
    (hlast : (v :: rest).getLast? = some root)
    (hroot : (env.getLayoutFile root).1 = "")
    (hfuel : rest.length + 1 ≤ fuel) :
    ∃ files r, compileView env fuel v s = some (r, s.emit (.parsed files)) ∧
      files = (v :: rest).map env.getViewFilePath ∧
      files.head? = some (env.getViewFilePath v) ∧
      files.getLast? = some (env.getViewFilePath root) ∧
      (∀ p, rest = [p] → files = [env.getViewFilePath v, env.getViewFilePath p]) := by
  have hloop := chainLoop_chain env rest v root [] fuel hchain hne hlast hroot hfuel
  simp only [List.nil_append] at hloop
  refine ⟨_, _, compileView_eq env fuel v s _ hloop, rfl, ?_, ?_, ?_⟩
  · simp
  · rw [List.getLast?_map, hlast]
    rfl
  · intro p hp
    subst hp
    rfl

theorem compileView_parse_order_witness :
    ∃ files r, compileView demoEnv 2 "b.html" emptyState
        = some (r, emptyState.emit (.parsed files)) ∧
      files = ["b.html", "a.html"].map demoEnv.getViewFilePath ∧
      files.head? = some (demoEnv.getViewFilePath "b.html") ∧
      files.getLast? = some (demoEnv.getViewFilePath "a.html") ∧
      (∀ p, ["a.html"] = [p] →
        files = [demoEnv.getViewFilePath "b.html", demoEnv.getViewFilePath p]) :=
  compileView_parse_order demoEnv "b.html" "a.html" ["a.html"] 2 emptyState
    (by simp [demoEnv]) (by simp) (by simp) (by simp [demoEnv]) (by simp)

/-- C1 (as stated, refuted): the view `b.html` has the layout `a.html`, which
has none; the list handed to the parser is `[views/b.html, views/a.html]`, the
view first, and not `[views/a.html, views/b.html]`. -/
theorem compileView_parse_order_counterexample :
    (demoEnv.getLayoutFile "b.html").1 = "a.html" ∧
    (demoEnv.getLayoutFile "a.html").1 = "" ∧
    (compileView demoEnv 2 "b.html" emptyState).map (fun r => r.2.events)
      = some [Event.parsed ["views/b.html", "views/a.html"]] ∧
    (compileView demoEnv 2 "b.html" emptyState).map (fun r => r.2.events)
      ≠ some [Event.parsed [demoEnv.getViewFilePath "a.html",
          demoEnv.getViewFilePath "b.html"]] := by
  refine ⟨by decide, by decide, by decide, by decide⟩

/-- C2 (amended): for a chain of three files, `c` requested, `b` the layout of
`c` and `a` the layout of `b`, the files are parsed in the order `c, b, a` and
a successful `compileView c` returns the sub-template looked up under the base
filename of `a`, the root-most layout and last file of the list. -/
theorem compileView_returns_root_layout {T D : Type} (env : Env T D) (a b c : String)
    (fuel : Nat) (s : State T D) (tmpl : T)
    (ha : a ≠ "") (hb : b ≠ "") (hc : c ≠ "")
    (hcb : (env.getLayoutFile c).1 = b) (hba : (env.getLayoutFile b).1 = a)
    (haroot : (env.getLayoutFile a).1 = "") (hfuel : 3 ≤ fuel)
    (hparse : ParseFiles env
      [env.getViewFilePath c, env.getViewFilePath b, env.getViewFilePath a] = .ok tmpl) :
    compileView env fuel c s
      = some (.ok (env.lookup tmpl (Base (env.getViewFilePath a))),
          s.emit (.parsed
            [env.getViewFilePath c, env.getViewFilePath b, env.getViewFilePath a])) := by
  have hloop := chainLoop_chain env [b, a] c a [] fuel
    (by simp [hcb, hba]) (by simp [ha, hb, hc]) (by simp) haroot (by simpa using hfuel)
  simp only [List.nil_append, List.map] at hloop
  rw [compileView_eq env fuel c s _ hloop, hparse]
  rfl

theorem compileView_returns_root_layout_witness :
    compileView demoEnv 3 "c.html" emptyState
      = some (.ok (demoEnv.lookup "c.html" (Base (demoEnv.getViewFilePath "a.html"))),
          emptyState.emit (.parsed
            [demoEnv.getViewFilePath "c.html", demoEnv.getViewFilePath "b.html",
              demoEnv.getViewFilePath "a.html"])) :=
  compileView_returns_root_layout demoEnv "a.html" "b.html" "c.html" 3 emptyState "c.html"
    (by decide) (by decide) (by decide) (by decide) (by decide) (by decide) (by decide)
    rfl

/-- C2 (as stated, refuted): with `c.html` requested, `b.html` its layout and
`a.html` the layout of that, the parse succeeds and `compileView` returns the
template looked up under `a.html`, which is not the one under `c.html`. -/
theorem compileView_returns_leaf_counterexample :
    ParseFiles demoEnv ["views/c.html", "views/b.html", "views/a.html"] = .ok "c.html" ∧
    (compileView demoEnv 3 "c.html" emptyState).map (fun r => r.1)
      = some (.ok (demoEnv.lookup "c.html" (Base "views/a.html"))) ∧
    demoEnv.lookup "c.html" (Base "views/a.html") = some "a.html" ∧
    demoEnv.lookup "c.html" (Base "views/c.html") = some "c.html" ∧
    (compileView demoEnv 3 "c.html" emptyState).map (fun r => r.1)
      ≠ some (.ok (demoEnv.lookup "c.html" (Base "views/c.html"))) := by
  refine ⟨rfl, rfl, by decide, by decide, ?_⟩
  rw [show (compileView demoEnv 3 "c.html" emptyState).map (fun r => r.1)
      = some (.ok (some "a.html")) from rfl,
    show demoEnv.lookup "c.html" (Base "views/c.html") = some "c.html" from rfl]
  intro h
  injection h with h
  injection h with h
  injection h with h
  exact absurd h (by decide)

/-- C7: when the path is in the store or its layout chain ends within the
fuel, `viewTemplate` and `partialViewTemplate` return and leave `viewsMapper`
as it was; on a miss the template compiled by `viewTemplate` is returned, the
path is still absent afterwards, and a second call parses the files again and
returns the same template. -/
theorem lookups_leave_store {T D : Type} (env : Env T D) (fuel : Nat) (filePath : String)
    (s : State T D)
    (hterm : s.viewsMapper filePath ≠ none ∨ (chainLoop env fuel filePath []).isSome) :
    (∃ tmpl s1, viewTemplate env fuel filePath s = some (tmpl, s1) ∧
      s1.viewsMapper = s.viewsMapper ∧
      (s.viewsMapper filePath = none →
        s1.viewsMapper filePath = none ∧
        ∃ files rest s2, s1.events = s.events ++ Event.parsed files :: rest ∧
          viewTemplate env fuel filePath s1 = some (tmpl, s2) ∧
          s2.viewsMapper = s.viewsMapper ∧
          s2.events = s1.events ++ Event.parsed files :: rest)) ∧
    (∃ r s1, partialViewTemplate env fuel filePath s = some (r, s1) ∧
      s1.viewsMapper = s.viewsMapper ∧
      (s.viewsMapper filePath = none →
        ∃ files rest s2, s1.events = s.events ++ Event.parsed files :: rest ∧
          partialViewTemplate env fuel filePath s1 = some (r, s2) ∧
          s2.viewsMapper = s.viewsMapper ∧
          s2.events = s1.events ++ Event.parsed files :: rest)) := by
  cases hstore : s.viewsMapper filePath with
  | some tmpl =>
    constructor
    · exact ⟨tmpl, s, by simp [viewTemplate, hstore], rfl, by simp⟩
    · exact ⟨Lookup env tmpl (Base filePath), s, by simp [partialViewTemplate, hstore], rfl,
        by simp⟩
  | none =>
    have hsome : (chainLoop env fuel filePath []).isSome := by
      rcases hterm with h | h
      · exact absurd hstore h
      · exact h
    obtain ⟨files, hfiles⟩ := Option.isSome_iff_exists.mp hsome
    have hc := fun s0 : State T D => compileView_eq env fuel filePath s0 files hfiles
    constructor
    · cases hp : ParseFiles env files with
      | error err =>
        refine ⟨none, (s.emit (.parsed files)).emit (.printed err), ?_, rfl, ?_⟩
        · simp [viewTemplate, hstore, hc, hp]
        · intro _
          refine ⟨hstore, files, [.printed err],
            (((s.emit (.parsed files)).emit (.printed err)).emit (.parsed files)).emit
              (.printed err), ?_, ?_, rfl, ?_⟩
          · simp [State.emit]
          · simp [viewTemplate, hstore, hc, hp, State.emit]
          · simp [State.emit]
      | ok t =>
        refine ⟨env.lookup t (Base (files.getLast?.getD "")), s.emit (.parsed files),
          ?_, rfl, ?_⟩
        · simp [viewTemplate, hstore, hc, hp]
        · intro _
          refine ⟨hstore, files, [], (s.emit (.parsed files)).emit (.parsed files),
            ?_, ?_, rfl, ?_⟩
          · simp [State.emit]
          · simp [viewTemplate, hstore, hc, hp, State.emit]
          · simp [State.emit]
    · cases hp : ParseFiles env files with
      | error err =>
        refine ⟨.value none, (s.emit (.parsed files)).emit (.printed err), ?_, rfl, ?_⟩
        · simp [partialViewTemplate, hstore, hc, hp]
        · intro _
          refine ⟨files, [.printed err],
            (((s.emit (.parsed files)).emit (.printed err)).emit (.parsed files)).emit
              (.printed err), ?_, ?_, rfl, ?_⟩
          · simp [State.emit]
          · simp [partialViewTemplate, hstore, hc, hp, State.emit]
          · simp [State.emit]
      | ok t =>
        refine ⟨Lookup env (env.lookup t (Base (files.getLast?.getD ""))) (Base filePath),
          s.emit (.parsed files), ?_, rfl, ?_⟩
        · simp [partialViewTemplate, hstore, hc, hp]
        · intro _
          refine ⟨files, [], (s.emit (.parsed files)).emit (.parsed files), ?_, ?_, rfl, ?_⟩
          · simp [State.emit]
          · simp [partialViewTemplate, hstore, hc, hp, State.emit]
          · simp [State.emit]

theorem lookups_leave_store_witness :
    (emptyState.viewsMapper "c.html" ≠ none ∨ (chainLoop demoEnv 3 "c.html" []).isSome) ∧
    (∃ tmpl s1, viewTemplate demoEnv 3 "c.html" emptyState = some (tmpl, s1) ∧
      s1.viewsMapper = emptyState.viewsMapper) ∧
    (∃ r s1, partialViewTemplate demoEnv 3 "c.html" emptyState = some (r, s1) ∧
      s1.viewsMapper = emptyState.viewsMapper) :=
  ⟨Or.inr rfl,
    (lookups_leave_store demoEnv 3 "c.html" emptyState (Or.inr rfl)).1.imp
      (fun _ h => h.imp (fun _ h => ⟨h.1, h.2.1⟩)),
    (lookups_leave_store demoEnv 3 "c.html" emptyState (Or.inr rfl)).2.imp
      (fun _ h => h.imp (fun _ h => ⟨h.1, h.2.1⟩))⟩

/-- C8: when `viewTemplate` returns `tmpl` in state `s1`, `ParseTemplate`
returns, keeps the store of `s1` and adds the events `new`, where `notFound` is
among `new` exactly when `tmpl` is not nil and its execution returns an error;
when `tmpl` is nil nothing is added: no execution and no not-found response. -/
theorem ParseTemplate_notFound_iff {T D : Type} (env : Env T D) (fuel : Nat) (path : String)
    (data : D) (s s1 : State T D) (tmpl : Option T)
    (hview : viewTemplate env fuel path s = some (tmpl, s1)) :
    ∃ new, ParseTemplate env fuel path data s = some ⟨s1.viewsMapper, s1.events ++ new⟩ ∧
      (Event.notFound ∈ new ↔ ∃ t err, tmpl = some t ∧ env.execute t data = some err) ∧
      (∀ t, tmpl = some t → new.head? = some (Event.executed t data)) ∧
      (tmpl = none → new = []) := by
  cases tmpl with
  | none =>
    refine ⟨[], ?_, by simp, by simp, fun _ => rfl⟩
    simp [ParseTemplate, hview]
  | some t =>
    cases hexec : env.execute t data with
    | none =>
      refine ⟨[.executed t data], ?_, ?_, ?_, by simp⟩
      · simp [ParseTemplate, hview, hexec, State.emit]
      · simp [hexec]
      · intro t2 h
        cases h
        rfl
    | some err =>
      refine ⟨[.executed t data, .printed err, .notFound], ?_, ?_, ?_, by simp⟩
      · simp [ParseTemplate, hview, hexec, State.emit]
      · simp [hexec]
      · intro t2 h
        cases h
        rfl

theorem ParseTemplate_notFound_iff_witness :
    viewTemplate demoEnv 1 "bad.html" emptyState
      = some (some "bad.html", emptyState.emit (.parsed ["views/bad.html"])) ∧
    ∃ new, ParseTemplate demoEnv 1 "bad.html" () emptyState
        = some ⟨(emptyState.emit (.parsed ["views/bad.html"])).viewsMapper,
            (emptyState.emit (.parsed ["views/bad.html"])).events ++ new⟩ ∧
      (Event.notFound ∈ new ↔
        ∃ t err, some "bad.html" = some t ∧ demoEnv.execute t () = some err) ∧
      (∀ t, some "bad.html" = some t → new.head? = some (Event.executed t ())) ∧
      (some "bad.html" = none → new = []) :=
  ⟨rfl, ParseTemplate_notFound_iff demoEnv 1 "bad.html" () emptyState
    (emptyState.emit (.parsed ["views/bad.html"])) (some "bad.html") rfl⟩

/-! ## Facts about the binder -/

theorem parseFields_cons (lib : Lib) (bag : Values) (p : StructField × Value)
    (rest : List (StructField × Value)) :
    parseFields lib bag (p :: rest)
      = if (fieldStep lib bag p).2 then ((p.1, (fieldStep lib bag p).1) :: rest, true)
        else ((p.1, (fieldStep lib bag p).1) :: (parseFields lib bag rest).1,
          (parseFields lib bag rest).2) := by
  obtain ⟨f, v⟩ := p
  rw [parseFields]
  rfl

/-- When the loop does not panic, every field has made its turn. -/
theorem parseFields_get (lib : Lib) (bag : Values) :
    ∀ (fields : List (StructField × Value)) (i : Nat) (p : StructField × Value),
      (parseFields lib bag fields).2 = false → fields[i]? = some p →
      (parseFields lib bag fields).1[i]? = some (p.1, (fieldStep lib bag p).1) ∧
        (fieldStep lib bag p).2 = false := by
  intro fields
  induction fields with
  | nil => intro i p _ h; simp at h
  | cons q rest ih =>
    intro i p hret hget
    rw [parseFields_cons] at hret ⊢
    cases hq : (fieldStep lib bag q).2 with
    | true => simp [hq] at hret
    | false =>
      simp only [hq, Bool.false_eq_true, if_false] at hret ⊢
      cases i with
      | zero =>
        simp at hget
        subst hget
        simp [hq]
      | succ j =>
        simp at hget
        simpa using ih j p hret hget

/-- A field whose turn does not change it keeps its value, panic or not. -/
theorem parseFields_frame (lib : Lib) (bag : Values) :
    ∀ (fields : List (StructField × Value)) (i : Nat) (p : StructField × Value),
      fields[i]? = some p → (fieldStep lib bag p).1 = p.2 →
      (parseFields lib bag fields).1[i]? = some p := by
  intro fields
  induction fields with
  | nil => intro i p h; simp at h
  | cons q rest ih =>
    intro i p hget hstep
    rw [parseFields_cons]
    cases i with
    | zero =>
      simp at hget
      subst hget
      cases hq : (fieldStep lib bag q).2 <;> simp [hstep]
    | succ j =>
      simp at hget
      cases hq : (fieldStep lib bag q).2
      · simpa using ih j p hget hstep
      · simpa using hget

theorem ParseUrlValueToStruct_struct (lib : Lib) (bag : Values) (typeString : String)
    (fields : List (StructField × Value)) :
    ParseUrlValueToStruct lib bag (.struct typeString fields)
      = (.struct typeString (parseFields lib bag fields).1, (parseFields lib bag fields).2) := by
  rw [ParseUrlValueToStruct]

/-- When the call returns, field `i` of the result is the turn of field `i`. -/
theorem ParseUrlValueToStruct_field (lib : Lib) (bag : Values) (typeString : String)
    (fields : List (StructField × Value)) (i : Nat) (p : StructField × Value)
    (hret : (ParseUrlValueToStruct lib bag (.struct typeString fields)).2 = false)
    (hget : fields[i]? = some p) :
    (ParseUrlValueToStruct lib bag (.struct typeString fields)).1.field i
      = some (p.1, (fieldStep lib bag p).1) := by
  rw [ParseUrlValueToStruct_struct] at hret ⊢
  exact (parseFields_get lib bag fields i p hret hget).1

/-- The turn of a named field that can be set and is not tagged `-` is the
coercion of the bag value under its source name. -/
theorem fieldStep_bound (lib : Lib) (bag : Values) (f : StructField) (v : Value)
    (hnamed : f.Anonymous = false) (hset : f.CanSet = true) (htag : f.tagFrom ≠ "-") :
    fieldStep lib bag (f, v)
      = match coerce lib bag (sourceName f) v with
        | some w => (w, false)
        | none => (v, true) := by
  simp [fieldStep, setField, hnamed, hset, htag]

/-- A successful `ParseInt(s, 10, 64)` yields an `int64`. -/
theorem ParseInt_range (s : List Char) (h : (ParseInt s 64).2 = none) :
    -(2 : Int) ^ 63 ≤ (ParseInt s 64).1 ∧ (ParseInt s 64).1 < 2 ^ 63 := by
  unfold ParseInt at h ⊢
  cases s with
  | nil => simp at h
  | cons c cs =>
    dsimp only at h ⊢
    split_ifs at h ⊢ <;> simp_all <;> omega

/-- A number that fits `bits` bits is not changed by the conversion. -/
theorem wrapInt_of_fits (bits : Nat) (x : Int) (hbits : 0 < bits)
    (hlo : -(2 : Int) ^ (bits - 1) ≤ x) (hhi : x < 2 ^ (bits - 1)) :
    wrapInt bits x = x := by
  unfold wrapInt
  have hpow : (2 : Int) ^ bits = 2 * 2 ^ (bits - 1) := by
    obtain ⟨n, rfl⟩ : ∃ n, bits = n + 1 := ⟨bits - 1, by omega⟩
    simp [pow_succ, mul_comm]
  rw [hpow, Int.emod_eq_of_lt (by omega) (by omega)]
  omega

/-- C3 (amended): for a named field of a signed integer kind that can be set
and is not tagged `-`, after a call that returns: if the first bag value under
the source name parses as a base-10 64-bit integer `m`, the field holds `m`
reduced to the width of its kind, which is `m` itself when `m` fits that width
(always so for `int64` and `int`); if it does not parse, or the key is absent,
the field holds 0, whatever it held before. -/
theorem ParseUrlValueToStruct_signed (lib : Lib) (bag : Values) (typeString : String)
    (fields : List (StructField × Value)) (i : Nat) (f : StructField) (k : IntKind)
    (old : Int)
    (hget : fields[i]? = some (f, .int k old))
    (hnamed : f.Anonymous = false) (hset : f.CanSet = true) (htag : f.tagFrom ≠ "-")
    (hret : (ParseUrlValueToStruct lib bag (.struct typeString fields)).2 = false) :
    ∃ n, (ParseUrlValueToStruct lib bag (.struct typeString fields)).1.field i
        = some (f, .int k n) ∧
      (∀ m, ParseInt (bag.Get (sourceName f)).data 64 = (m, none) →
        n = wrapInt k.bits m ∧
        (-(2 : Int) ^ (k.bits - 1) ≤ m ∧ m < 2 ^ (k.bits - 1) → n = m) ∧
        (k = .Int64 ∨ k = .Int → n = m)) ∧
      ((ParseInt (bag.Get (sourceName f)).data 64).2 ≠ none → n = 0) ∧
      (bag (sourceName f) = none → n = 0) := by
  have hfield := ParseUrlValueToStruct_field lib bag typeString fields i _ hret hget
  rw [fieldStep_bound lib bag f _ hnamed hset htag] at hfield
  have hbits : 0 < k.bits := by cases k <;> simp [IntKind.bits, intSize]
  have hzero : wrapInt k.bits 0 = 0 :=
    wrapInt_of_fits k.bits 0 hbits (by simp) (by positivity)
  cases hp : (ParseInt (bag.Get (sourceName f)).data 64).2 with
  | none =>
    refine ⟨wrapInt k.bits (ParseInt (bag.Get (sourceName f)).data 64).1, ?_, ?_, ?_, ?_⟩
    · rw [hfield]
      simp [coerce, hp, SetInt]
    · intro m hm
      have hrange := ParseInt_range _ hp
      rw [hm] at hrange ⊢
      refine ⟨rfl, fun h => wrapInt_of_fits k.bits m hbits h.1 h.2, ?_⟩
      intro hk
      apply wrapInt_of_fits k.bits m hbits
      · rcases hk with rfl | rfl <;> simpa [IntKind.bits, intSize] using hrange.1
      · rcases hk with rfl | rfl <;> simpa [IntKind.bits, intSize] using hrange.2
    · intro h
      exact absurd rfl h
    · intro habs
      have : bag.Get (sourceName f) = "" := by simp [Values.Get, habs]
      rw [this] at hp
      exact absurd hp (by decide)
  | some e =>
    refine ⟨0, ?_, ?_, fun _ => rfl, fun _ => rfl⟩
    · rw [hfield]
      simp [coerce, hp, SetInt, hzero]
    · intro m hm
      rw [hm] at hp
      exact absurd hp (by simp)

theorem ParseUrlValueToStruct_signed_witness :
    ∃ n, (ParseUrlValueToStruct demoLib demoBag
        (.struct "main.Inner" [(demoField "N" "n", .int .Int16 1)])).1.field 0
        = some (demoField "N" "n", .int .Int16 n) ∧
      (∀ m, ParseInt (demoBag.Get (sourceName (demoField "N" "n"))).data 64 = (m, none) →
        n = wrapInt IntKind.Int16.bits m ∧
        (-(2 : Int) ^ (IntKind.Int16.bits - 1) ≤ m ∧ m < 2 ^ (IntKind.Int16.bits - 1) →
          n = m) ∧
        (IntKind.Int16 = .Int64 ∨ IntKind.Int16 = .Int → n = m)) ∧
      ((ParseInt (demoBag.Get (sourceName (demoField "N" "n"))).data 64).2 ≠ none → n = 0) ∧
      (demoBag (sourceName (demoField "N" "n")) = none → n = 0) :=
  ParseUrlValueToStruct_signed demoLib demoBag "main.Inner"
    [(demoField "N" "n", .int .Int16 1)] 0 (demoField "N" "n") .Int16 1
    rfl rfl rfl (by decide) (by decide)

/-- C3 (as stated, refuted): the field `Small int8` is bound from `n`, whose
first value `"300"` parses as the integer 300; after the call the field holds
44, neither 300 nor 0. -/
theorem ParseUrlValueToStruct_signed_counterexample :
    demoStruct.field 0 = some (demoField "Small" "n", .int .Int8 5) ∧
    ParseInt (demoBag.Get (sourceName (demoField "Small" "n"))).data 64 = (300, none) ∧
    (ParseUrlValueToStruct demoLib demoBag demoStruct).2 = false ∧
    (ParseUrlValueToStruct demoLib demoBag demoStruct).1.field 0
      = some (demoField "Small" "n", .int .Int8 44) ∧
    (ParseUrlValueToStruct demoLib demoBag demoStruct).1.field 0
      ≠ some (demoField "Small" "n", .int .Int8 300) := by
  refine ⟨rfl, by decide, by decide, rfl, ?_⟩
  rw [show (ParseUrlValueToStruct demoLib demoBag demoStruct).1.field 0
      = some (demoField "Small" "n", .int .Int8 44) from rfl]
  intro h
  injection h with h
  injection h with _ h
  injection h with _ h
  exact absurd h (by decide)

/-- C4 (the code at the failing input): the values `["1", "x", "3"]` bound to
the `[]int` field `Nums` give `[1, 0, 3]`, but the numeral
`"99999999999999999999"`, which `Atoi` rejects with a range error, leaves
9223372036854775807 and not 0 in the field `Big`. -/
theorem ParseUrlValueToStruct_intSlice_range :
    (ParseUrlValueToStruct demoLib demoBag demoStruct).1.field 2
      = some (demoField "Nums" "nums", .intSlice [1, 0, 3]) ∧
    Atoi "99999999999999999999" = (9223372036854775807, some .ErrRange) ∧
    (ParseUrlValueToStruct demoLib demoBag demoStruct).1.field 3
      = some (demoField "Big" "big", .intSlice [9223372036854775807]) :=
  ⟨rfl, by decide, rfl⟩

/-- C5 (amended): for a named field of type `[]int` or `[]string` that can be
set and is not tagged `-`, when the bag has no value under the source name,
after a call that returns the field is the empty sequence, whatever it held
before. -/
theorem ParseUrlValueToStruct_slice_absent (lib : Lib) (bag : Values) (typeString : String)
    (fields : List (StructField × Value)) (i : Nat) (f : StructField) (v : Value)
    (hget : fields[i]? = some (f, v))
    (hnamed : f.Anonymous = false) (hset : f.CanSet = true) (htag : f.tagFrom ≠ "-")
    (habsent : bag (sourceName f) = none)
    (hret : (ParseUrlValueToStruct lib bag (.struct typeString fields)).2 = false) :
    (∀ xs, v = .intSlice xs →
      (ParseUrlValueToStruct lib bag (.struct typeString fields)).1.field i
        = some (f, .intSlice [])) ∧
    (∀ xs, v = .stringSlice xs →
      (ParseUrlValueToStruct lib bag (.struct typeString fields)).1.field i
        = some (f, .stringSlice [])) := by
  have hfield := ParseUrlValueToStruct_field lib bag typeString fields i _ hret hget
  rw [fieldStep_bound lib bag f _ hnamed hset htag] at hfield
  constructor
  · intro xs hv
    subst hv
    rw [hfield]
    simp [coerce, Values.index, habsent]
  · intro xs hv
    subst hv
    rw [hfield]
    simp [coerce, Values.index, habsent]

theorem ParseUrlValueToStruct_slice_absent_witness :
    demoBag (sourceName (demoField "Ids" "")) = none ∧
    ((∀ xs, Value.intSlice [1, 2, 3] = .intSlice xs →
      (ParseUrlValueToStruct demoLib demoBag demoStruct).1.field 6
        = some (demoField "Ids" "", .intSlice [])) ∧
    (∀ xs, Value.intSlice [1, 2, 3] = .stringSlice xs →
      (ParseUrlValueToStruct demoLib demoBag demoStruct).1.field 6
        = some (demoField "Ids" "", .stringSlice []))) :=
  ⟨by decide,
    ParseUrlValueToStruct_slice_absent demoLib demoBag "main.Outer" _ 6 (demoField "Ids" "")
      (.intSlice [1, 2, 3]) rfl rfl rfl (by decide) (by decide) (by decide)⟩

/-- C5 (as stated, refuted): the fields `Ids []int` and `Tags []string` hold
`[1, 2, 3]` and `["a"]`, the bag has no value under `Ids` or `Tags`, and after
the call both fields are empty. -/
theorem ParseUrlValueToStruct_slice_counterexample :
    demoStruct.field 6 = some (demoField "Ids" "", .intSlice [1, 2, 3]) ∧
    demoStruct.field 7 = some (demoField "Tags" "", .stringSlice ["a"]) ∧
    demoBag (sourceName (demoField "Ids" "")) = none ∧
    demoBag (sourceName (demoField "Tags" "")) = none ∧
    (ParseUrlValueToStruct demoLib demoBag demoStruct).2 = false ∧
    (ParseUrlValueToStruct demoLib demoBag demoStruct).1.field 6
      = some (demoField "Ids" "", .intSlice []) ∧
    (ParseUrlValueToStruct demoLib demoBag demoStruct).1.field 7
      = some (demoField "Tags" "", .stringSlice []) ∧
    (ParseUrlValueToStruct demoLib demoBag demoStruct).1.field 6 ≠ demoStruct.field 6 ∧
    (ParseUrlValueToStruct demoLib demoBag demoStruct).1.field 7 ≠ demoStruct.field 7 := by
  refine ⟨rfl, rfl, by decide, by decide, by decide, rfl, rfl, ?_, ?_⟩
  · rw [show (ParseUrlValueToStruct demoLib demoBag demoStruct).1.field 6
        = some (demoField "Ids" "", .intSlice []) from rfl,
      show demoStruct.field 6 = some (demoField "Ids" "", .intSlice [1, 2, 3]) from rfl]
    intro h
    injection h with h
    injection h with _ h
    injection h with h
    exact absurd h (by decide)
  · rw [show (ParseUrlValueToStruct demoLib demoBag demoStruct).1.field 7
        = some (demoField "Tags" "", .stringSlice []) from rfl,
      show demoStruct.field 7 = some (demoField "Tags" "", .stringSlice ["a"]) from rfl]
    intro h
    injection h with h
    injection h with _ h
    injection h with h
    exact absurd h (by decide)

/-- C6: for a named boolean field that can be set and is bound (not tagged
`-`), after a call that returns the field is true exactly when the first bag
value under the source name parses as a boolean and the parsed value is true;
it is false for a token that does not parse, for the empty string and for an
absent key, whatever it held before. -/
theorem ParseUrlValueToStruct_bool (lib : Lib) (bag : Values) (typeString : String)
    (fields : List (StructField × Value)) (i : Nat) (f : StructField) (old : Bool)
    (hget : fields[i]? = some (f, .bool old))
    (hnamed : f.Anonymous = false) (hset : f.CanSet = true) (htag : f.tagFrom ≠ "-")
    (hret : (ParseUrlValueToStruct lib bag (.struct typeString fields)).2 = false) :
    ∃ b, (ParseUrlValueToStruct lib bag (.struct typeString fields)).1.field i
        = some (f, .bool b) ∧
      (b = true ↔ ParseBool (bag.Get (sourceName f)) = (true, none)) ∧
      ((ParseBool (bag.Get (sourceName f))).2 ≠ none → b = false) ∧
      (bag.Get (sourceName f) = "" → b = false) ∧
      (bag (sourceName f) = none → b = false) := by
  have hfield := ParseUrlValueToStruct_field lib bag typeString fields i _ hret hget
  rw [fieldStep_bound lib bag f _ hnamed hset htag] at hfield
  have hcases : ∀ s : String, ParseBool s = (true, none) ∨ ParseBool s = (false, none) ∨
      ParseBool s = (false, some .ErrSyntax) := by
    intro s
    unfold ParseBool
    split_ifs <;> simp
  refine ⟨(ParseBool (bag.Get (sourceName f))).1 && (ParseBool (bag.Get (sourceName f))).2.isNone,
    ?_, ?_, ?_, ?_, ?_⟩
  · rw [hfield]
    simp [coerce]
  · rcases hcases (bag.Get (sourceName f)) with h | h | h <;> simp [h]
  · rcases hcases (bag.Get (sourceName f)) with h | h | h <;> simp [h]
  · intro h
    rw [h]
    decide
  · intro h
    have : bag.Get (sourceName f) = "" := by simp [Values.Get, h]
    rw [this]
    decide

theorem ParseUrlValueToStruct_bool_witness :
    ∃ b, (ParseUrlValueToStruct demoLib demoBag demoStruct).1.field 4
        = some (demoField "Ok" "ok", .bool b) ∧
      (b = true ↔ ParseBool (demoBag.Get (sourceName (demoField "Ok" "ok"))) = (true, none)) ∧
      ((ParseBool (demoBag.Get (sourceName (demoField "Ok" "ok")))).2 ≠ none → b = false) ∧
      (demoBag.Get (sourceName (demoField "Ok" "ok")) = "" → b = false) ∧
      (demoBag (sourceName (demoField "Ok" "ok")) = none → b = false) :=
  ParseUrlValueToStruct_bool demoLib demoBag "main.Outer" _ 4 (demoField "Ok" "ok") false
    rfl rfl rfl (by decide) (by decide)

/-- C9: a named field whose `from` tag is `-` has the same value after
`ParseUrlValueToStruct` as before, for every bag, every kind of field, whether
or not the field can be set, and whether or not the call panics elsewhere. -/
theorem ParseUrlValueToStruct_skip (lib : Lib) (bag : Values) (typeString : String)
    (fields : List (StructField × Value)) (i : Nat) (f : StructField) (v : Value)
    (hget : fields[i]? = some (f, v))
    (hnamed : f.Anonymous = false) (htag : f.tagFrom = "-") :
    (ParseUrlValueToStruct lib bag (.struct typeString fields)).1.field i = some (f, v) := by
  rw [ParseUrlValueToStruct_struct]
  apply parseFields_frame lib bag fields i (f, v) hget
  simp only [fieldStep, hnamed, setField, htag]
  cases f.CanSet <;> simp

theorem ParseUrlValueToStruct_skip_witness :
    demoBag "-" = some ["1"] ∧
    (ParseUrlValueToStruct demoLib demoBag demoStruct).1.field 5
      = some (demoField "Skipped" "-", .int .Int64 8) :=
  ⟨by decide,
    ParseUrlValueToStruct_skip demoLib demoBag "main.Outer" _ 5 (demoField "Skipped" "-")
      (.int .Int64 8) rfl rfl rfl⟩

/-- C10: when the call on a struct returns, the value of an anonymous field
`e` afterwards is the result of `ParseUrlValueToStruct` with the same bag on
the initial `e` alone, and that call returns too; so a bound named field `g`
of an embedded struct is written from the bag value under its own source name,
the same key as for a field `g` at top level. -/
theorem ParseUrlValueToStruct_embedded (lib : Lib) (bag : Values) (typeString : String)
    (fields : List (StructField × Value)) (i : Nat) (f : StructField) (e : Value)
    (hget : fields[i]? = some (f, e)) (hanon : f.Anonymous = true)
    (hret : (ParseUrlValueToStruct lib bag (.struct typeString fields)).2 = false) :
    (ParseUrlValueToStruct lib bag (.struct typeString fields)).1.field i
      = some (f, (ParseUrlValueToStruct lib bag e).1) ∧
    (ParseUrlValueToStruct lib bag e).2 = false ∧
    (∀ j g w, e.field j = some (g, w) → g.Anonymous = false → g.CanSet = true →
      g.tagFrom ≠ "-" →
      ∃ w2, coerce lib bag (sourceName g) w = some w2 ∧
        (ParseUrlValueToStruct lib bag e).1.field j = some (g, w2)) := by
  have hfield := ParseUrlValueToStruct_field lib bag typeString fields i _ hret hget
  have hstep : fieldStep lib bag (f, e) = ParseUrlValueToStruct lib bag e := by
    simp [fieldStep, hanon]
  rw [ParseUrlValueToStruct_struct] at hret
  have hinner : (ParseUrlValueToStruct lib bag e).2 = false := by
    rw [← hstep]
    exact (parseFields_get lib bag fields i (f, e) hret hget).2
  refine ⟨by rw [hfield, hstep], hinner, ?_⟩
  intro j g w hgw hnamed hset htag
  cases e with
  | struct ts fs =>
    have hj : fs[j]? = some (g, w) := hgw
    have hinnerField := ParseUrlValueToStruct_field lib bag ts fs j _ hinner hj
    rw [ParseUrlValueToStruct_struct] at hinner
    have hok := (parseFields_get lib bag fs j (g, w) hinner hj).2
    rw [fieldStep_bound lib bag g w hnamed hset htag] at hinnerField hok
    cases hc : coerce lib bag (sourceName g) w with
    | none => simp [hc] at hok
    | some w2 =>
      refine ⟨w2, rfl, ?_⟩
      rw [hinnerField, hc]
  | _ => simp [Value.field] at hgw

theorem ParseUrlValueToStruct_embedded_witness :
    (ParseUrlValueToStruct demoLib demoBag demoStruct).1.field 8
      = some (⟨"Inner", true, "", "", true, true⟩,
          (ParseUrlValueToStruct demoLib demoBag
            (.struct "main.Inner" [(demoField "N" "n", .int .Int16 1)])).1) ∧
    (ParseUrlValueToStruct demoLib demoBag
      (.struct "main.Inner" [(demoField "N" "n", .int .Int16 1)])).1
      = .struct "main.Inner" [(demoField "N" "n", .int .Int16 300)] :=
  ⟨(ParseUrlValueToStruct_embedded demoLib demoBag "main.Outer" _ 8
      ⟨"Inner", true, "", "", true, true⟩
      (.struct "main.Inner" [(demoField "N" "n", .int .Int16 1)]) rfl rfl (by decide)).1,
    rfl⟩

/-! ## The store and the events of the lookups -/

theorem compileView_returns {T D : Type} (env : Env T D) (fuel : Nat) (filePath : String)
    (s : State T D) (h : (chainLoop env fuel filePath []).isSome) :
    ∃ r files, compileView env fuel filePath s = some (r, s.emit (.parsed files)) := by
  obtain ⟨files, hfiles⟩ := Option.isSome_iff_exists.mp h
  exact ⟨_, files, compileView_eq env fuel filePath s files hfiles⟩

/-- The call `compileView` adds one event and leaves the store alone. -/
theorem compileView_frame {T D : Type} (env : Env T D) (fuel : Nat) (filePath : String)
    (s s1 : State T D) (r : Except String (Option T))
    (h : compileView env fuel filePath s = some (r, s1)) :
    ∃ files, s1 = s.emit (.parsed files) := by
  cases hloop : chainLoop env fuel filePath [] with
  | none => simp [compileView, hloop] at h
  | some files =>
    rw [compileView_eq env fuel filePath s files hloop] at h
    simp only [Option.some.injEq, Prod.mk.injEq] at h
    exact ⟨files, h.2.symm⟩

/-- The result of `compileView` does not depend on the state. -/
theorem compileView_indep {T D : Type} (env : Env T D) (fuel : Nat) (filePath : String)
    (s s2 : State T D) :
    (compileView env fuel filePath s).map Prod.fst
      = (compileView env fuel filePath s2).map Prod.fst := by
  cases hloop : chainLoop env fuel filePath [] with
  | none => simp [compileView, hloop]
  | some files =>
    rw [compileView_eq env fuel filePath s files hloop,
      compileView_eq env fuel filePath s2 files hloop]
    rfl

theorem viewTemplate_frame {T D : Type} (env : Env T D) (fuel : Nat) (filePath : String)
    (s s1 : State T D) (r : Option T)
    (h : viewTemplate env fuel filePath s = some (r, s1)) :
    s1.viewsMapper = s.viewsMapper := by
  unfold viewTemplate at h
  cases hstore : s.viewsMapper filePath with
  | some tmpl =>
    simp only [hstore, Option.some.injEq, Prod.mk.injEq] at h
    rw [← h.2]
  | none =>
    simp only [hstore] at h
    cases hc : compileView env fuel filePath s with
    | none => simp [hc] at h
    | some p =>
      obtain ⟨res, s2⟩ := p
      obtain ⟨files, rfl⟩ := compileView_frame env fuel filePath s s2 res hc
      cases res <;> simp only [hc, Option.some.injEq, Prod.mk.injEq] at h <;> rw [← h.2] <;> rfl

theorem partialViewTemplate_frame {T D : Type} (env : Env T D) (fuel : Nat)
    (filePath : String) (s s1 : State T D) (r : Ret T)
    (h : partialViewTemplate env fuel filePath s = some (r, s1)) :
    s1.viewsMapper = s.viewsMapper := by
  unfold partialViewTemplate at h
  cases hstore : s.viewsMapper filePath with
  | some tmpl =>
    simp only [hstore, Option.some.injEq, Prod.mk.injEq] at h
    rw [← h.2]
  | none =>
    simp only [hstore] at h
    cases hc : compileView env fuel filePath s with
    | none => simp [hc] at h
    | some p =>
      obtain ⟨res, s2⟩ := p
      obtain ⟨files, rfl⟩ := compileView_frame env fuel filePath s s2 res hc
      cases res <;> simp only [hc, Option.some.injEq, Prod.mk.injEq] at h <;> rw [← h.2] <;> rfl

theorem viewTemplate_returns {T D : Type} (env : Env T D) (fuel : Nat) (filePath : String)
    (s : State T D) (h : (chainLoop env fuel filePath []).isSome) :
    ∃ r s1, viewTemplate env fuel filePath s = some (r, s1) := by
  unfold viewTemplate
  cases s.viewsMapper filePath with
  | some tmpl => exact ⟨_, _, rfl⟩
  | none =>
    obtain ⟨res, files, hc⟩ := compileView_returns env fuel filePath s h
    cases res <;> simp [hc]

theorem partialViewTemplate_returns {T D : Type} (env : Env T D) (fuel : Nat)
    (filePath : String) (s : State T D) (h : (chainLoop env fuel filePath []).isSome) :
    ∃ r s1, partialViewTemplate env fuel filePath s = some (r, s1) := by
  unfold partialViewTemplate
  cases s.viewsMapper filePath with
  | some tmpl => exact ⟨_, _, rfl⟩
  | none =>
    obtain ⟨res, files, hc⟩ := compileView_returns env fuel filePath s h
    cases res <;> simp [hc]

/-- What `ParsePartialTemplate` does after `partialViewTemplate` has returned a
template: it executes `Content` when the template has one, the template itself
otherwise, and answers not-found when the execution fails. -/
theorem ParsePartialTemplate_eq {T D : Type} (env : Env T D) (fuel : Nat) (path : String)
    (data : D) (s s1 : State T D) (tmpl : T)
    (h : partialViewTemplate env fuel path s = some (.value (some tmpl), s1)) :
    ParsePartialTemplate env fuel path data s
      = some (⟨s1.viewsMapper, s1.events ++
          Event.executed ((env.lookup tmpl "Content").getD tmpl) data ::
            (match env.execute ((env.lookup tmpl "Content").getD tmpl) data with
              | none => []
              | some err => [.printed err, .notFound])⟩, false) := by
  unfold ParsePartialTemplate
  rw [h]
  dsimp only
  cases env.lookup tmpl "Content" with
  | none =>
    dsimp only [Option.getD]
    cases env.execute tmpl data <;> simp [State.emit]
  | some content =>
    dsimp only [Option.getD]
    cases env.execute content data <;> simp [State.emit]

/-- What `ParseTemplate` does after `viewTemplate` has returned a template. -/
theorem ParseTemplate_eq {T D : Type} (env : Env T D) (fuel : Nat) (path : String)
    (data : D) (s s1 : State T D) (tmpl : T)
    (h : viewTemplate env fuel path s = some (some tmpl, s1)) :
    ParseTemplate env fuel path data s
      = some ⟨s1.viewsMapper, s1.events ++ Event.executed tmpl data ::
          (match env.execute tmpl data with
            | none => []
            | some err => [.printed err, .notFound])⟩ := by
  unfold ParseTemplate
  rw [h]
  dsimp only
  cases env.execute tmpl data <;> simp [State.emit]

/-- C11: when `partialViewTemplate` returns the non-nil template `tmpl`,
`ParsePartialTemplate` executes the sub-template `Content` of `tmpl` if there
is one and `tmpl` itself otherwise, and nothing else; when `viewTemplate`
returns the non-nil template `tv`, `ParseTemplate` executes `tv` and nothing
else, whether or not `tv` has a sub-template `Content`. -/
theorem ParsePartialTemplate_content {T D : Type} (env : Env T D) (fuel : Nat)
    (path : String) (data : D) (s s1 : State T D) (tmpl : T)
    (hpart : partialViewTemplate env fuel path s = some (.value (some tmpl), s1)) :
    (∃ rest, ParsePartialTemplate env fuel path data s
        = some (⟨s1.viewsMapper, s1.events ++ rest⟩, false) ∧
      (∀ content, env.lookup tmpl "Content" = some content →
        ∀ t d, Event.executed t d ∈ rest ↔ t = content ∧ d = data) ∧
      (env.lookup tmpl "Content" = none →
        ∀ t d, Event.executed t d ∈ rest ↔ t = tmpl ∧ d = data) ∧
      rest.head? = some (Event.executed ((env.lookup tmpl "Content").getD tmpl) data)) ∧
    (∀ tv sv, viewTemplate env fuel path s = some (some tv, sv) →
      ∃ rest, ParseTemplate env fuel path data s = some ⟨sv.viewsMapper, sv.events ++ rest⟩ ∧
        (∀ t d, Event.executed t d ∈ rest ↔ t = tv ∧ d = data) ∧
        rest.head? = some (Event.executed tv data)) := by
  constructor
  · refine ⟨_, ParsePartialTemplate_eq env fuel path data s s1 tmpl hpart, ?_, ?_, ?_⟩
    · intro content hc t d
      rw [hc]
      cases env.execute ((some content).getD tmpl) data <;> simp
    · intro hc t d
      rw [hc]
      cases env.execute ((none : Option T).getD tmpl) data <;> simp
    · simp
  · intro tv sv hview
    refine ⟨_, ParseTemplate_eq env fuel path data s sv tv hview, ?_, ?_⟩
    · intro t d
      cases env.execute tv data <;> simp
    · simp

theorem ParsePartialTemplate_content_witness :
    partialViewTemplate demoEnv 1 "page.html" emptyState
      = some (.value (some "page.html"), emptyState.emit (.parsed ["views/page.html"])) ∧
    demoEnv.lookup "page.html" "Content" = some "Content" ∧
    ∃ rest, ParsePartialTemplate demoEnv 1 "page.html" () emptyState
        = some (⟨(emptyState.emit (.parsed ["views/page.html"])).viewsMapper,
            (emptyState.emit (.parsed ["views/page.html"])).events ++ rest⟩, false) ∧
      rest.head? = some (Event.executed "Content" ()) :=
  ⟨rfl, by decide,
    (ParsePartialTemplate_content demoEnv 1 "page.html" () emptyState
      (emptyState.emit (.parsed ["views/page.html"])) "page.html" rfl).1.imp
      (fun _ h => ⟨h.1, h.2.2.2⟩)⟩

/-- C14 (the code at the failing input): `missing.html` is not in the store
and `compileView` fails on it; `ParseTemplate` and `ParsePartialTemplate` print
the error and return without the not-found response, while on `bad.html`, whose
execution fails, both respond not-found. -/
theorem ParseTemplate_missing_no_notFound :
    emptyState.viewsMapper "missing.html" = none ∧
    (compileView demoEnv 1 "missing.html" emptyState).map Prod.fst
      = some (.error "open views/missing.html: no such file or directory") ∧
    (ParseTemplate demoEnv 1 "missing.html" () emptyState).map (fun s => s.events)
      = some [.parsed ["views/missing.html"],
          .printed "open views/missing.html: no such file or directory"] ∧
    (ParsePartialTemplate demoEnv 1 "missing.html" () emptyState).map (fun r => r.1.events)
      = some [.parsed ["views/missing.html"],
          .printed "open views/missing.html: no such file or directory"] ∧
    (ParseTemplate demoEnv 1 "bad.html" () emptyState).map (fun s => s.events)
      = some [.parsed ["views/bad.html"], .executed "bad.html" (),
          .printed "execution failed", .notFound] ∧
    (ParsePartialTemplate demoEnv 1 "bad.html" () emptyState).map (fun r => r.1.events)
      = some [.parsed ["views/bad.html"], .executed "bad.html" (),
          .printed "execution failed", .notFound] :=
  ⟨rfl, rfl, by decide, by decide, by decide, by decide⟩

/-! ## Termination of the chain loop -/

/-- With less fuel than files on the chain the loop does not finish. -/
theorem chainLoop_short {T D : Type} (env : Env T D) :
    ∀ (rest : List String) (v : String) (acc : List String) (fuel : Nat),
      List.Chain (fun a b => (env.getLayoutFile a).1 = b) v rest →
      (∀ f ∈ v :: rest, f ≠ "") →
      fuel ≤ rest.length →
      chainLoop env fuel v acc = none := by
  intro rest
  induction rest with
  | nil =>
    intro v acc fuel _ hne hfuel
    have hv : v ≠ "" := hne v (by simp)
    obtain rfl : fuel = 0 := by simpa using hfuel
    simp [chainLoop, hv]
  | cons p rest ih =>
    intro v acc fuel hchain hne hfuel
    have hv : v ≠ "" := hne v (by simp)
    rw [List.chain_cons] at hchain
    cases fuel with
    | zero => simp [chainLoop, hv]
    | succ n =>
      rw [chainLoop_step env n v acc hv, hchain.1]
      exact ih p _ n hchain.2 (fun f hf => hne f (List.mem_cons_of_mem _ hf))
        (by simpa using hfuel)

/-- A walk that never reaches a file without layout exhausts every fuel. -/
theorem chainLoop_diverges {T D : Type} (env : Env T D) :
    ∀ (fuel : Nat) (w : String) (acc : List String),
      (∀ n, (fun f => (env.getLayoutFile f).1)^[n] w ≠ "") →
      chainLoop env fuel w acc = none := by
  intro fuel
  induction fuel with
  | zero =>
    intro w acc h
    have hw : w ≠ "" := h 0
    simp [chainLoop, hw]
  | succ n ih =>
    intro w acc h
    have hw : w ≠ "" := h 0
    rw [chainLoop_step env n w acc hw]
    apply ih
    intro m
    have := h (m + 1)
    rwa [Function.iterate_succ_apply] at this

/-- Two layout chains from the same file that both end in a file without
layout are the same chain. -/
theorem chain_unique {T D : Type} (env : Env T D) :
    ∀ (rest rest2 : List String) (v root root2 : String),
      List.Chain (fun a b => (env.getLayoutFile a).1 = b) v rest →
      List.Chain (fun a b => (env.getLayoutFile a).1 = b) v rest2 →
      (∀ f ∈ v :: rest, f ≠ "") → (∀ f ∈ v :: rest2, f ≠ "") →
      (v :: rest).getLast? = some root → (v :: rest2).getLast? = some root2 →
      (env.getLayoutFile root).1 = "" → (env.getLayoutFile root2).1 = "" →
      rest = rest2 := by
  intro rest
  induction rest with
  | nil =>
    intro rest2 v root root2 _ h2 _ hne2 hl _ hr _
    simp at hl
    subst hl
    cases rest2 with
    | nil => rfl
    | cons q rest2 =>
      rw [List.chain_cons] at h2
      have hq : q ≠ "" := hne2 q (by simp)
      exact absurd (h2.1.symm.trans hr) hq
  | cons p rest ih =>
    intro rest2 v root root2 h1 h2 hne1 hne2 hl1 hl2 hr1 hr2
    rw [List.chain_cons] at h1
    cases rest2 with
    | nil =>
      simp at hl2
      subst hl2
      have hp : p ≠ "" := hne1 p (by simp)
      exact absurd (h1.1.symm.trans hr2) hp
    | cons q rest2 =>
      rw [List.chain_cons] at h2
      have hpq : p = q := h1.1.symm.trans h2.1
      subst hpq
      rw [List.getLast?_cons_cons] at hl1 hl2
      rw [ih rest2 p root root2 h1.2 h2.2 (fun f hf => hne1 f (List.mem_cons_of_mem _ hf))
        (fun f hf => hne2 f (List.mem_cons_of_mem _ hf)) hl1 hl2 hr1 hr2]

/-- A layout chain that ends in a file without layout names no file twice. -/
theorem chain_nodup {T D : Type} (env : Env T D) :
    ∀ (rest : List String) (v root : String),
      List.Chain (fun a b => (env.getLayoutFile a).1 = b) v rest →
      (∀ f ∈ v :: rest, f ≠ "") →
      (v :: rest).getLast? = some root →
      (env.getLayoutFile root).1 = "" →
      (v :: rest).Nodup := by
  intro rest
  induction rest with
  | nil => intro v root _ _ _ _; simp
  | cons p rest ih =>
    intro v root hchain hne hlast hroot
    rw [List.nodup_cons]
    constructor
    · intro hmem
      obtain ⟨l1, l2, hsplit⟩ := List.append_of_mem hmem
      have hchain2 : List.Chain (fun a b => (env.getLayoutFile a).1 = b) v l2 := by
        rw [hsplit, List.chain_split] at hchain
        exact hchain.2
      have hne2 : ∀ f ∈ v :: l2, f ≠ "" := by
        intro f hf
        apply hne f
        rw [hsplit]
        rcases List.mem_cons.mp hf with h | h
        · rw [h]; simp
        · simp [h]
      have hlast2 : (v :: l2).getLast? = some root := by
        rw [hsplit] at hlast
        rw [← hlast]
        rw [show v :: (l1 ++ v :: l2) = (v :: l1) ++ (v :: l2) from rfl,
          List.getLast?_append_of_ne_nil _ (by simp)]
      have := chain_unique env (p :: rest) l2 v root root hchain hchain2 hne hne2 hlast hlast2
        hroot hroot
      have hlen := congrArg List.length hsplit
      rw [this] at hlen
      simp at hlen
      omega
    · rw [List.chain_cons] at hchain
      rw [List.getLast?_cons_cons] at hlast
      exact ih p root hchain.2 (fun f hf => hne f (List.mem_cons_of_mem _ hf)) hlast hroot

/-- C17: when the walk from `v` along the layout relation passes the files
`v :: rest` (`k = rest.length` steps) and ends in a file without layout, the
loop of `compileView` finishes with any fuel of at least `k + 1` and yields
exactly `k + 1` file paths, the path of each file of the chain in order, and
the chain names no file twice; it takes `k + 1` turns (less fuel does not
finish), and on a walk that never reaches a file without layout it finishes
with no fuel at all. -/
theorem chainLoop_terminates {T D : Type} (env : Env T D) (v root : String)
    (rest : List String)
    (hchain : List.Chain (fun a b => (env.getLayoutFile a).1 = b) v rest)
    (hne : ∀ f ∈ v :: rest, f ≠ "")
    (hlast : (v :: rest).getLast? = some root)
    (hroot : (env.getLayoutFile root).1 = "") :
    (∀ fuel, rest.length + 1 ≤ fuel →
      ∃ files, chainLoop env fuel v [] = some files ∧
        files.length = rest.length + 1 ∧
        files = (v :: rest).map env.getViewFilePath ∧
        ∀ (s : State T D), ∃ r, compileView env fuel v s = some (r, s.emit (.parsed files))) ∧
    (v :: rest).Nodup ∧
    (∀ fuel, fuel ≤ rest.length → chainLoop env fuel v [] = none) ∧
    (∀ w, (∀ n, (fun f => (env.getLayoutFile f).1)^[n] w ≠ "") →
      ∀ fuel acc, chainLoop env fuel w acc = none) := by
  refine ⟨?_, chain_nodup env rest v root hchain hne hlast hroot,
    fun fuel hfuel => chainLoop_short env rest v [] fuel hchain hne hfuel,
    fun w hw fuel acc => chainLoop_diverges env fuel w acc hw⟩
  intro fuel hfuel
  have hloop := chainLoop_chain env rest v root [] fuel hchain hne hlast hroot hfuel
  simp only [List.nil_append] at hloop
  exact ⟨_, hloop, by simp, rfl, fun s => ⟨_, compileView_eq env fuel v s _ hloop⟩⟩

theorem chainLoop_terminates_witness :
    (∀ fuel, ["b.html", "a.html"].length + 1 ≤ fuel →
      ∃ files, chainLoop demoEnv fuel "c.html" [] = some files ∧
        files.length = ["b.html", "a.html"].length + 1 ∧
        files = ("c.html" :: ["b.html", "a.html"]).map demoEnv.getViewFilePath ∧
        ∀ (s : State String Unit),
          ∃ r, compileView demoEnv fuel "c.html" s = some (r, s.emit (.parsed files))) ∧
    ("c.html" :: ["b.html", "a.html"]).Nodup ∧
    (∀ fuel, fuel ≤ ["b.html", "a.html"].length → chainLoop demoEnv fuel "c.html" [] = none) ∧
    (∀ w, (∀ n, (fun f => (demoEnv.getLayoutFile f).1)^[n] w ≠ "") →
      ∀ fuel acc, chainLoop demoEnv fuel w acc = none) :=
  chainLoop_terminates demoEnv "c.html" "a.html" ["b.html", "a.html"]
    (by simp [demoEnv]) (by simp) (by simp) (by simp [demoEnv])

/-! ## The walk of compileAllViews -/

theorem viewOf_eq_some_iff {T D : Type} (env : Env T D) (entry : String × Option FileInfo)
    (p : String) :
    viewOf env entry = some p ↔
      ∃ fileInfo, entry.2 = some fileInfo ∧ fileInfo.IsDir = false ∧
        Ext fileInfo.Name = env.DefaultTemplateExt ∧
        env.generateViewFilePath entry.1 = p ∧ env.isLayoutFile p = false := by
  unfold viewOf
  cases hinfo : entry.2 with
  | none => simp
  | some fileInfo =>
    simp only [Option.some.injEq, exists_eq_left']
    by_cases hdir : fileInfo.IsDir = true
    · simp [hdir]
    · by_cases hext : Ext fileInfo.Name = env.DefaultTemplateExt
      · by_cases hlay : env.isLayoutFile (env.generateViewFilePath entry.1) = true
        · simp only [hdir, hext, hlay]
          simp
          intro h
          rw [← h, hlay]
        · simp only [hdir, hext, hlay]
          simp
          intro h
          rw [← h]
          simpa using hlay
      · simp [hdir, hext]

/-- One call of the walk function, by the view path of the visited file. -/
theorem walkFn_eq {T D : Type} (env : Env T D) (fuel : Nat)
    (entry : String × Option FileInfo) (s : State T D) :
    walkFn env fuel entry s
      = match viewOf env entry with
        | none => some s
        | some filePath =>
          match compileView env fuel filePath s with
          | none => none
          | some (.ok tmpl, s1) => some (s1.store filePath tmpl)
          | some (.error err, s1) => some (s1.emit (.printed err)) := by
  unfold walkFn viewOf
  cases entry.2 with
  | none => rfl
  | some fileInfo =>
    dsimp only
    split_ifs <;> rfl

/-- One call of the walk function removes no key from the store. -/
theorem walkFn_keys {T D : Type} (env : Env T D) (fuel : Nat)
    (entry : String × Option FileInfo) (s s1 : State T D)
    (h : walkFn env fuel entry s = some s1) (key : String)
    (hkey : s.viewsMapper key ≠ none) : s1.viewsMapper key ≠ none := by
  rw [walkFn_eq] at h
  cases hv : viewOf env entry with
  | none =>
    simp only [hv, Option.some.injEq] at h
    rwa [← h]
  | some filePath =>
    simp only [hv] at h
    cases hc : compileView env fuel filePath s with
    | none => simp [hc] at h
    | some p =>
      obtain ⟨res, s2⟩ := p
      obtain ⟨files, rfl⟩ := compileView_frame env fuel filePath s s2 res hc
      cases res with
      | error err =>
        simp only [hc, Option.some.injEq] at h
        rw [← h]
        exact hkey
      | ok tmpl =>
        simp only [hc, Option.some.injEq] at h
        rw [← h]
        simp only [State.store, State.emit]
        split_ifs
        · simp
        · exact hkey

theorem walkAll_keys {T D : Type} (env : Env T D) (fuel : Nat) :
    ∀ (entries : List (String × Option FileInfo)) (s s1 : State T D),
      walkAll env fuel entries s = some s1 →
      ∀ key, s.viewsMapper key ≠ none → s1.viewsMapper key ≠ none := by
  intro entries
  induction entries with
  | nil =>
    intro s s1 h key hkey
    simp only [walkAll, Option.some.injEq] at h
    rwa [← h]
  | cons e rest ih =>
    intro s s1 h key hkey
    simp only [walkAll] at h
    cases hw : walkFn env fuel e s with
    | none => simp [hw] at h
    | some s2 =>
      simp only [hw] at h
      exact ih s2 s1 h key (walkFn_keys env fuel e s s2 hw key hkey)

/-- The walk returns when every chain it meets ends within the fuel. -/
theorem walkAll_returns {T D : Type} (env : Env T D) (fuel : Nat) :
    ∀ (entries : List (String × Option FileInfo)) (s : State T D),
      (∀ e ∈ entries, ∀ p, viewOf env e = some p → (chainLoop env fuel p []).isSome) →
      ∃ s1, walkAll env fuel entries s = some s1 := by
  intro entries
  induction entries with
  | nil => intro s _; exact ⟨s, rfl⟩
  | cons e rest ih =>
    intro s hfin
    have hw : ∃ s2, walkFn env fuel e s = some s2 := by
      rw [walkFn_eq]
      cases hv : viewOf env e with
      | none => exact ⟨s, rfl⟩
      | some p =>
        obtain ⟨res, files, hc⟩ :=
          compileView_returns env fuel p s (hfin e (by simp) p hv)
        cases res <;> simp [hc]
    obtain ⟨s2, hs2⟩ := hw
    obtain ⟨s1, hs1⟩ := ih s2 (fun e2 he2 => hfin e2 (List.mem_cons_of_mem _ he2))
    exact ⟨s1, by simp [walkAll, hs2, hs1]⟩

/-- The store after one call of the walk function. Whether a view compiles is
read off `compileView` in the fixed state `s0`. -/
theorem walkFn_store {T D : Type} (env : Env T D) (fuel : Nat) (s0 : State T D)
    (entry : String × Option FileInfo) (s s1 : State T D)
    (h : walkFn env fuel entry s = some s1) (key : String) :
    (∀ tmpl, viewOf env entry = some key →
      (compileView env fuel key s0).map Prod.fst = some (.ok tmpl) →
      s1.viewsMapper key = some tmpl) ∧
    (¬ (viewOf env entry = some key ∧
        ∃ tmpl, (compileView env fuel key s0).map Prod.fst = some (.ok tmpl)) →
      s1.viewsMapper key = s.viewsMapper key) := by
  rw [walkFn_eq] at h
  cases hv : viewOf env entry with
  | none =>
    simp only [hv, Option.some.injEq] at h
    subst h
    exact ⟨fun tmpl hk _ => by simp at hk, fun _ => rfl⟩
  | some filePath =>
    simp only [hv] at h
    cases hc : compileView env fuel filePath s with
    | none => simp [hc] at h
    | some p =>
      obtain ⟨res, s3⟩ := p
      obtain ⟨files, rfl⟩ := compileView_frame env fuel filePath s s3 res hc
      have hind := compileView_indep env fuel filePath s0 s
      rw [hc] at hind
      simp only [Option.map_some'] at hind
      cases res with
      | error err =>
        simp only [hc, Option.some.injEq] at h
        subst h
        constructor
        · intro tmpl hk hcomp
          simp only [Option.some.injEq] at hk
          subst hk
          rw [hind] at hcomp
          simp at hcomp
        · intro _
          rfl
      | ok t =>
        simp only [hc, Option.some.injEq] at h
        subst h
        constructor
        · intro tmpl hk hcomp
          simp only [Option.some.injEq] at hk
          subst hk
          rw [hind] at hcomp
          simp only [Option.some.injEq, Except.ok.injEq] at hcomp
          subst hcomp
          simp [State.store]
        · intro hnot
          have hk : ¬ key = filePath := by
            intro hk
            subst hk
            exact hnot ⟨rfl, t, hind⟩
          simp [State.store, State.emit, hk]

/-- The store after the walk: a path under which a visited view compiles holds
the compiled template, every other path holds what it held before. -/
theorem walkAll_store {T D : Type} (env : Env T D) (fuel : Nat) (s0 : State T D) :
    ∀ (entries : List (String × Option FileInfo)) (s s1 : State T D),
      walkAll env fuel entries s = some s1 →
      (∀ key tmpl, (∃ e ∈ entries, viewOf env e = some key) →
        (compileView env fuel key s0).map Prod.fst = some (.ok tmpl) →
        s1.viewsMapper key = some tmpl) ∧
      (∀ key, ¬ ((∃ e ∈ entries, viewOf env e = some key) ∧
          ∃ tmpl, (compileView env fuel key s0).map Prod.fst = some (.ok tmpl)) →
        s1.viewsMapper key = s.viewsMapper key) := by
  intro entries
  induction entries with
  | nil =>
    intro s s1 h
    simp only [walkAll, Option.some.injEq] at h
    subst h
    exact ⟨fun key tmpl hex _ => by simp at hex, fun key _ => rfl⟩
  | cons e rest ih =>
    intro s s1 h
    simp only [walkAll] at h
    cases hw : walkFn env fuel e s with
    | none => simp [hw] at h
    | some s2 =>
      simp only [hw] at h
      obtain ⟨ihA, ihB⟩ := ih s2 s1 h
      constructor
      · intro key tmpl hex hcomp
        by_cases hlater : ∃ e2 ∈ rest, viewOf env e2 = some key
        · exact ihA key tmpl hlater hcomp
        · have hfirst : viewOf env e = some key := by
            obtain ⟨e2, he2, hv2⟩ := hex
            rcases List.mem_cons.mp he2 with h1 | h1
            · rw [← h1]; exact hv2
            · exact absurd ⟨e2, h1, hv2⟩ hlater
          rw [ihB key (fun hc => hlater hc.1)]
          exact (walkFn_store env fuel s0 e s s2 hw key).1 tmpl hfirst hcomp
      · intro key hnot
        have hnotLater : ¬ ((∃ e2 ∈ rest, viewOf env e2 = some key) ∧
            ∃ tmpl, (compileView env fuel key s0).map Prod.fst = some (.ok tmpl)) := by
          rintro ⟨⟨e2, he2, hv2⟩, hc⟩
          exact hnot ⟨⟨e2, List.mem_cons_of_mem _ he2, hv2⟩, hc⟩
        rw [ihB key hnotLater]
        apply (walkFn_store env fuel s0 e s s2 hw key).2
        rintro ⟨hv, hc⟩
        exact hnot ⟨⟨e, by simp, hv⟩, hc⟩

theorem ParseTemplate_frame {T D : Type} (env : Env T D) (fuel : Nat) (path : String)
    (data : D) (s s1 : State T D) (h : ParseTemplate env fuel path data s = some s1) :
    s1.viewsMapper = s.viewsMapper := by
  cases hv : viewTemplate env fuel path s with
  | none => simp [ParseTemplate, hv] at h
  | some p =>
    obtain ⟨r, s2⟩ := p
    have hframe := viewTemplate_frame env fuel path s s2 r hv
    cases r with
    | none =>
      simp only [ParseTemplate, hv, Option.some.injEq] at h
      rw [← h, hframe]
    | some tmpl =>
      rw [ParseTemplate_eq env fuel path data s s2 tmpl hv] at h
      simp only [Option.some.injEq] at h
      rw [← h, ← hframe]

theorem ParsePartialTemplate_frame {T D : Type} (env : Env T D) (fuel : Nat) (path : String)
    (data : D) (s s1 : State T D) (b : Bool)
    (h : ParsePartialTemplate env fuel path data s = some (s1, b)) :
    s1.viewsMapper = s.viewsMapper := by
  cases hv : partialViewTemplate env fuel path s with
  | none => simp [ParsePartialTemplate, hv] at h
  | some p =>
    obtain ⟨r, s2⟩ := p
    have hframe := partialViewTemplate_frame env fuel path s s2 r hv
    cases r with
    | nilDeref =>
      simp only [ParsePartialTemplate, hv, Option.some.injEq, Prod.mk.injEq] at h
      rw [← h.1, hframe]
    | value t =>
      cases t with
      | none =>
        simp only [ParsePartialTemplate, hv, Option.some.injEq, Prod.mk.injEq] at h
        rw [← h.1, hframe]
      | some tmpl =>
        rw [ParsePartialTemplate_eq env fuel path data s s2 tmpl hv] at h
        simp only [Option.some.injEq, Prod.mk.injEq] at h
        rw [← h.1, ← hframe]

theorem ParseTemplate_returns {T D : Type} (env : Env T D) (fuel : Nat) (path : String)
    (data : D) (s : State T D) (h : (chainLoop env fuel path []).isSome) :
    ∃ s1, ParseTemplate env fuel path data s = some s1 := by
  obtain ⟨r, s2, hv⟩ := viewTemplate_returns env fuel path s h
  cases r with
  | none => exact ⟨s2, by simp [ParseTemplate, hv]⟩
  | some tmpl => exact ⟨_, ParseTemplate_eq env fuel path data s s2 tmpl hv⟩

theorem ParsePartialTemplate_returns {T D : Type} (env : Env T D) (fuel : Nat)
    (path : String) (data : D) (s : State T D) (h : (chainLoop env fuel path []).isSome) :
    ∃ s1 b, ParsePartialTemplate env fuel path data s = some (s1, b) := by
  obtain ⟨r, s2, hv⟩ := partialViewTemplate_returns env fuel path s h
  cases r with
  | nilDeref => exact ⟨s2, true, by simp [ParsePartialTemplate, hv]⟩
  | value t =>
    cases t with
    | none => exact ⟨s2, false, by simp [ParsePartialTemplate, hv]⟩
    | some tmpl => exact ⟨_, _, ParsePartialTemplate_eq env fuel path data s s2 tmpl hv⟩

/-- In the concrete view tree every layout chain ends within three steps. -/
theorem demoEnv_chains (p : String) : (chainLoop demoEnv 3 p []).isSome := by
  by_cases h0 : p = ""
  · subst h0; rfl
  by_cases hc : p = "c.html"
  · subst hc; rfl
  by_cases hb : p = "b.html"
  · subst hb; rfl
  simp [chainLoop, demoEnv, h0, hc, hb]

/-- C13: with precompilation enabled and an empty store, when the layout chain
of every visited view ends within the fuel, `compileAllViews` returns, and a
view path is a key of the store afterwards, with the template `tmpl`, exactly
when it is the view path of a visited file that is not a directory, has the
template extension and is not a layout file, and `compileView` succeeds on it
with `tmpl`; a view path on which `compileView` fails is not a key. With
precompilation disabled the state is unchanged. -/
theorem compileAllViews_store {T D : Type} (env : Env T D) (fuel : Nat) (s : State T D)
    (hpre : env.precompile = true) (hempty : ∀ key, s.viewsMapper key = none)
    (hfin : ∀ e ∈ env.walk env.view, ∀ p, viewOf env e = some p →
      (chainLoop env fuel p []).isSome) :
    (∃ s1, compileAllViews env fuel s = some s1 ∧
      (∀ key tmpl, s1.viewsMapper key = some tmpl ↔
        ((∃ e ∈ env.walk env.view, ∃ fileInfo, e.2 = some fileInfo ∧
            fileInfo.IsDir = false ∧ Ext fileInfo.Name = env.DefaultTemplateExt ∧
            env.generateViewFilePath e.1 = key ∧ env.isLayoutFile key = false) ∧
          (compileView env fuel key s).map Prod.fst = some (.ok tmpl))) ∧
      (∀ key err, (compileView env fuel key s).map Prod.fst = some (.error err) →
        s1.viewsMapper key = none)) ∧
    compileAllViews { env with precompile := false } fuel s = some s := by
  refine ⟨?_, by simp [compileAllViews]⟩
  obtain ⟨s1, hs1⟩ := walkAll_returns env fuel (env.walk env.view) s hfin
  obtain ⟨hA, hB⟩ := walkAll_store env fuel s (env.walk env.view) s s1 hs1
  have hiff : ∀ key tmpl, s1.viewsMapper key = some tmpl ↔
      ((∃ e ∈ env.walk env.view, viewOf env e = some key) ∧
        (compileView env fuel key s).map Prod.fst = some (.ok tmpl)) := by
    intro key tmpl
    constructor
    · intro hkey
      by_cases hex : (∃ e ∈ env.walk env.view, viewOf env e = some key) ∧
          ∃ t, (compileView env fuel key s).map Prod.fst = some (.ok t)
      · obtain ⟨hvis, t, ht⟩ := hex
        have := hA key t hvis ht
        rw [this] at hkey
        simp only [Option.some.injEq] at hkey
        subst hkey
        exact ⟨hvis, ht⟩
      · rw [hB key hex, hempty key] at hkey
        simp at hkey
    · rintro ⟨hvis, hc⟩
      exact hA key tmpl hvis hc
  refine ⟨s1, by simp [compileAllViews, hpre, hs1], ?_, ?_⟩
  · intro key tmpl
    rw [hiff key tmpl]
    constructor
    · rintro ⟨⟨e, he, hv⟩, hc⟩
      exact ⟨⟨e, he, (viewOf_eq_some_iff env e key).mp hv⟩, hc⟩
    · rintro ⟨⟨e, he, hv⟩, hc⟩
      exact ⟨⟨e, he, (viewOf_eq_some_iff env e key).mpr hv⟩, hc⟩
  · intro key err herr
    rw [hB key, hempty key]
    rintro ⟨_, t, ht⟩
    rw [herr] at ht
    simp at ht

theorem compileAllViews_store_witness :
    (∃ s1, compileAllViews demoEnv 3 emptyState = some s1 ∧
      (∀ key tmpl, s1.viewsMapper key = some tmpl ↔
        ((∃ e ∈ demoEnv.walk demoEnv.view, ∃ fileInfo, e.2 = some fileInfo ∧
            fileInfo.IsDir = false ∧ Ext fileInfo.Name = demoEnv.DefaultTemplateExt ∧
            demoEnv.generateViewFilePath e.1 = key ∧ demoEnv.isLayoutFile key = false) ∧
          (compileView demoEnv 3 key emptyState).map Prod.fst = some (.ok tmpl))) ∧
      (∀ key err, (compileView demoEnv 3 key emptyState).map Prod.fst = some (.error err) →
        s1.viewsMapper key = none)) ∧
    (compileAllViews demoEnv 3 emptyState).map
        (fun s1 => ["a.html", "c.html", "missing.html"].map s1.viewsMapper)
      = some [none, some (some "a.html"), none] :=
  ⟨(compileAllViews_store demoEnv 3 emptyState rfl (fun _ => rfl)
      (fun _ _ p _ => demoEnv_chains p)).1, by decide⟩

/-- C16: when every layout chain ends within the fuel, each of
`compileAllViews`, `viewTemplate`, `partialViewTemplate`, `ParseTemplate` and
`ParsePartialTemplate` returns (the partial ones possibly with a panic of the
lookup on a nil template), and every path that is a key of the store before the
call is a key of the store after it. -/
theorem store_keys_persist {T D : Type} (env : Env T D) (fuel : Nat) (path : String)
    (data : D) (s : State T D) (hfin : ∀ p, (chainLoop env fuel p []).isSome) :
    (∃ s1, compileAllViews env fuel s = some s1 ∧
      ∀ key, s.viewsMapper key ≠ none → s1.viewsMapper key ≠ none) ∧
    (∃ r s1, viewTemplate env fuel path s = some (r, s1) ∧
      ∀ key, s.viewsMapper key ≠ none → s1.viewsMapper key ≠ none) ∧
    (∃ r s1, partialViewTemplate env fuel path s = some (r, s1) ∧
      ∀ key, s.viewsMapper key ≠ none → s1.viewsMapper key ≠ none) ∧
    (∃ s1, ParseTemplate env fuel path data s = some s1 ∧
      ∀ key, s.viewsMapper key ≠ none → s1.viewsMapper key ≠ none) ∧
    (∃ s1 b, ParsePartialTemplate env fuel path data s = some (s1, b) ∧
      ∀ key, s.viewsMapper key ≠ none → s1.viewsMapper key ≠ none) := by
  refine ⟨?_, ?_, ?_, ?_, ?_⟩
  · by_cases hpre : env.precompile = true
    · obtain ⟨s1, hs1⟩ := walkAll_returns env fuel (env.walk env.view) s
        (fun _ _ p _ => hfin p)
      exact ⟨s1, by simp [compileAllViews, hpre, hs1],
        walkAll_keys env fuel (env.walk env.view) s s1 hs1⟩
    · exact ⟨s, by simp [compileAllViews, hpre], fun _ h => h⟩
  · obtain ⟨r, s1, h⟩ := viewTemplate_returns env fuel path s (hfin path)
    refine ⟨r, s1, h, fun key hkey => ?_⟩
    rwa [viewTemplate_frame env fuel path s s1 r h]
  · obtain ⟨r, s1, h⟩ := partialViewTemplate_returns env fuel path s (hfin path)
    refine ⟨r, s1, h, fun key hkey => ?_⟩
    rwa [partialViewTemplate_frame env fuel path s s1 r h]
  · obtain ⟨s1, h⟩ := ParseTemplate_returns env fuel path data s (hfin path)
    refine ⟨s1, h, fun key hkey => ?_⟩
    rwa [ParseTemplate_frame env fuel path data s s1 h]
  · obtain ⟨s1, b, h⟩ := ParsePartialTemplate_returns env fuel path data s (hfin path)
    refine ⟨s1, b, h, fun key hkey => ?_⟩
    rwa [ParsePartialTemplate_frame env fuel path data s s1 b h]

theorem store_keys_persist_witness :
    warmState.viewsMapper "c.html" ≠ none ∧
    (∃ s1, compileAllViews demoEnv 3 warmState = some s1 ∧
      ∀ key, warmState.viewsMapper key ≠ none → s1.viewsMapper key ≠ none) ∧
    (∃ r s1, viewTemplate demoEnv 3 "c.html" warmState = some (r, s1) ∧
      ∀ key, warmState.viewsMapper key ≠ none → s1.viewsMapper key ≠ none) ∧
    (∃ r s1, partialViewTemplate demoEnv 3 "c.html" warmState = some (r, s1) ∧
      ∀ key, warmState.viewsMapper key ≠ none → s1.viewsMapper key ≠ none) ∧
    (∃ s1, ParseTemplate demoEnv 3 "c.html" () warmState = some s1 ∧
      ∀ key, warmState.viewsMapper key ≠ none → s1.viewsMapper key ≠ none) ∧
    (∃ s1 b, ParsePartialTemplate demoEnv 3 "c.html" () warmState = some (s1, b) ∧
      ∀ key, warmState.viewsMapper key ≠ none → s1.viewsMapper key ≠ none) :=
  ⟨by decide, store_keys_persist demoEnv 3 "c.html" () warmState demoEnv_chains⟩

/-! ## More facts about the binder -/

/-- C12 (amended): for a named (not anonymous) field of type `time.Time` that
can be set and is not tagged `-`, after a call that returns: if the first bag
value under the source name parses with
`time.Parse("2006-01-02 15:04:05", value)` as `t`, the field holds `t`; if it
does not parse, the field holds the value it held before (with an absent key
the value parsed is the empty string). An anonymous field of type `time.Time`
holds the value it held before, whatever the bag. -/
theorem ParseUrlValueToStruct_time (lib : Lib) (bag : Values) (typeString : String)
    (fields : List (StructField × Value)) (i : Nat) (f : StructField) (old : Int)
    (hget : fields[i]? = some (f, .time old))
    (hnamed : f.Anonymous = false) (hset : f.CanSet = true) (htag : f.tagFrom ≠ "-")
    (hret : (ParseUrlValueToStruct lib bag (.struct typeString fields)).2 = false) :
    (∀ t, lib.parseTime "2006-01-02 15:04:05" (bag.Get (sourceName f)) = some t →
      (ParseUrlValueToStruct lib bag (.struct typeString fields)).1.field i
        = some (f, .time t)) ∧
    (lib.parseTime "2006-01-02 15:04:05" (bag.Get (sourceName f)) = none →
      (ParseUrlValueToStruct lib bag (.struct typeString fields)).1.field i
        = some (f, .time old)) ∧
    (bag (sourceName f) = none → lib.parseTime "2006-01-02 15:04:05" "" = none →
      (ParseUrlValueToStruct lib bag (.struct typeString fields)).1.field i
        = some (f, .time old)) ∧
    (∀ j g t, fields[j]? = some (g, .time t) → g.Anonymous = true →
      (ParseUrlValueToStruct lib bag (.struct typeString fields)).1.field j
        = some (g, .time t)) := by
  have hfield := ParseUrlValueToStruct_field lib bag typeString fields i _ hret hget
  rw [fieldStep_bound lib bag f _ hnamed hset htag] at hfield
  refine ⟨?_, ?_, ?_, ?_⟩
  · intro t ht
    rw [hfield]
    simp [coerce, ht]
  · intro ht
    rw [hfield]
    simp [coerce, ht]
  · intro habs hempty
    have hval : bag.Get (sourceName f) = "" := by simp [Values.Get, habs]
    rw [hfield]
    simp [coerce, hval, hempty]
  · intro j g t hg hanon
    rw [ParseUrlValueToStruct_struct]
    apply parseFields_frame lib bag fields j (g, .time t) hg
    simp [fieldStep, hanon, ParseUrlValueToStruct]

theorem ParseUrlValueToStruct_time_witness :
    (∀ t, timeLib.parseTime "2006-01-02 15:04:05"
        (demoBag.Get (sourceName (demoField "At" "at"))) = some t →
      (ParseUrlValueToStruct timeLib demoBag
        (.struct "main.Event" [(demoField "At" "at", .time 7)])).1.field 0
        = some (demoField "At" "at", .time t)) ∧
    timeLib.parseTime "2006-01-02 15:04:05" (demoBag.Get (sourceName (demoField "At" "at")))
      = some 1136214245 ∧
    (ParseUrlValueToStruct timeLib demoBag
      (.struct "main.Event" [(demoField "At" "at", .time 7)])).1.field 0
      = some (demoField "At" "at", .time 1136214245) :=
  ⟨(ParseUrlValueToStruct_time timeLib demoBag "main.Event"
      [(demoField "At" "at", .time 7)] 0 (demoField "At" "at") 7 rfl rfl rfl
      (by decide) (by decide)).1, by decide, rfl⟩

/-- C12 (as stated, refuted): the struct `main.Stamped` embeds `time.Time`; the
embedded field `Time` can be set, the first bag value under `Time` parses
under the layout to the instant 1136214245, and after the call, which returns,
the field still holds the instant 7. -/
theorem ParseUrlValueToStruct_time_counterexample :
    demoStamped.field 0 = some (⟨"Time", true, "", "", true, true⟩, .time 7) ∧
    timeLib.parseTime "2006-01-02 15:04:05"
      (demoBag.Get (sourceName ⟨"Time", true, "", "", true, true⟩)) = some 1136214245 ∧
    (ParseUrlValueToStruct timeLib demoBag demoStamped).2 = false ∧
    (ParseUrlValueToStruct timeLib demoBag demoStamped).1.field 0
      = some (⟨"Time", true, "", "", true, true⟩, .time 7) ∧
    (ParseUrlValueToStruct timeLib demoBag demoStamped).1.field 0
      ≠ some (⟨"Time", true, "", "", true, true⟩, .time 1136214245) := by
  refine ⟨rfl, by decide, by decide, rfl, ?_⟩
  rw [show (ParseUrlValueToStruct timeLib demoBag demoStamped).1.field 0
      = some (⟨"Time", true, "", "", true, true⟩, .time 7) from rfl]
  intro h
  injection h with h
  injection h with _ h
  injection h with h
  exact absurd h (by decide)

/-- When no turn changes its field or panics, the loop changes nothing. -/
theorem parseFields_id (lib : Lib) (bag : Values) :
    ∀ (fields : List (StructField × Value)),
      (∀ p ∈ fields, fieldStep lib bag p = (p.2, false)) →
      parseFields lib bag fields = (fields, false) := by
  intro fields
  induction fields with
  | nil => intro _; rw [parseFields]
  | cons p rest ih =>
    intro h
    rw [parseFields_cons, h p (by simp), ih (fun q hq => h q (List.mem_cons_of_mem _ hq))]
    simp

/-- The turn of a named field that cannot be set, or that the `switch` has no
case for, leaves the field alone and does not panic. -/
theorem fieldStep_untouched (lib : Lib) (bag : Values) (f : StructField) (v : Value)
    (hnamed : f.Anonymous = false) (hkind : f.CanSet = false ∨ unhandled v = true) :
    fieldStep lib bag (f, v) = (v, false) := by
  simp only [fieldStep, hnamed, setField]
  by_cases hset : f.CanSet = true
  · by_cases htag : f.tagFrom = "-"
    · simp [hset, htag]
    · have hv : unhandled v = true := by
        rcases hkind with h | h
        · rw [hset] at h; exact absurd h (by simp)
        · exact h
      cases v <;> simp [unhandled] at hv <;> simp [hset, htag, coerce, hv]
  · simp [hset]

/-- The turn of a named field on which `Set` cannot panic does not panic. -/
theorem fieldStep_named_returns (lib : Lib) (bag : Values) (f : StructField) (v : Value)
    (hnamed : f.Anonymous = false) (hv : canPanic v = false) :
    (fieldStep lib bag (f, v)).2 = false := by
  by_cases hset : f.CanSet = true
  · by_cases htag : f.tagFrom = "-"
    · simp [fieldStep, hnamed, setField, hset, htag]
    · rw [fieldStep_bound lib bag f v hnamed hset htag]
      cases v with
      | iface numMethod dyn =>
        have hm : numMethod = 0 := by simpa [canPanic] using hv
        simp [coerce, hm]
      | struct typeString fields =>
        have hts : ¬ typeString = "time.Time" := by simpa [canPanic] using hv
        simp [coerce, hts]
      | float k bits =>
        simp only [coerce]
        cases lib.parseFloat (bag.Get (sourceName f)) <;> rfl
      | time t =>
        simp only [coerce]
        cases lib.parseTime "2006-01-02 15:04:05" (bag.Get (sourceName f)) <;> rfl
      | int k n =>
        simp only [coerce]
        split_ifs <;> rfl
      | uint k n =>
        simp only [coerce]
        split_ifs <;> rfl
      | bool b => simp [coerce]
      | string str => simp [coerce]
      | intSlice xs => simp [coerce]
      | stringSlice xs => simp [coerce]
      | other k id => simp [coerce]
  · simp [fieldStep, hnamed, setField, hset]

mutual
/-- A call on a value without a named field on which `Set` can panic returns. -/
theorem ParseUrlValueToStruct_returns (lib : Lib) (bag : Values) :
    ∀ v : Value, panicFree v = true → (ParseUrlValueToStruct lib bag v).2 = false
  | .struct typeString fields, h => by
    rw [panicFree] at h
    rw [ParseUrlValueToStruct_struct]
    exact parseFields_returns lib bag fields h
  | .bool _, _ => by simp [ParseUrlValueToStruct]
  | .int _ _, _ => by simp [ParseUrlValueToStruct]
  | .uint _ _, _ => by simp [ParseUrlValueToStruct]
  | .float _ _, _ => by simp [ParseUrlValueToStruct]
  | .iface _ _, _ => by simp [ParseUrlValueToStruct]
  | .string _, _ => by simp [ParseUrlValueToStruct]
  | .time _, _ => by simp [ParseUrlValueToStruct]
  | .intSlice _, _ => by simp [ParseUrlValueToStruct]
  | .stringSlice _, _ => by simp [ParseUrlValueToStruct]
  | .other _ _, _ => by simp [ParseUrlValueToStruct]
/-- The loop over fields without a named field on which `Set` can panic
returns. -/
theorem parseFields_returns (lib : Lib) (bag : Values) :
    ∀ fields : List (StructField × Value), fieldsPanicFree fields = true →
      (parseFields lib bag fields).2 = false
  | [], _ => by simp [parseFields]
  | (f, v) :: rest, h => by
    rw [fieldsPanicFree, Bool.and_eq_true] at h
    have hstep : (fieldStep lib bag (f, v)).2 = false := by
      by_cases hanon : f.Anonymous = true
      · have h1 := h.1
        simp only [hanon, if_true] at h1
        simp only [fieldStep, hanon, if_true]
        exact ParseUrlValueToStruct_returns lib bag v h1
      · have hanon2 : f.Anonymous = false := by simpa using hanon
        have h1 := h.1
        simp only [hanon2, Bool.false_eq_true, if_false, Bool.not_eq_true'] at h1
        exact fieldStep_named_returns lib bag f v hanon2 h1
    rw [parseFields_cons]
    simp only [hstep, Bool.false_eq_true, if_false]
    exact parseFields_returns lib bag rest h.2
end

/-- C15 (amended): a named field that cannot be set, and a named field that
can be set but has a kind outside the coercion table (a kind without a case in
the `switch`, or a struct whose type is not printed `time.Time`), has the same
value after `ParseUrlValueToStruct` as before, for every bag, whether or not
the call panics on another field; its own turn of the loop does not panic. The
call returns without panic when the target has, at any depth through its
anonymous fields, no named field of an interface type with methods and no
named field of a struct type printed `time.Time`; a call on a struct that has
only fields of the two sorts above leaves the struct as it was. -/
theorem ParseUrlValueToStruct_untouched (lib : Lib) (bag : Values) (typeString : String)
    (fields : List (StructField × Value)) (i : Nat) (f : StructField) (v : Value)
    (hget : fields[i]? = some (f, v))
    (hnamed : f.Anonymous = false) (hkind : f.CanSet = false ∨ unhandled v = true) :
    (ParseUrlValueToStruct lib bag (.struct typeString fields)).1.field i = some (f, v) ∧
    fieldStep lib bag (f, v) = (v, false) ∧
    (fieldsPanicFree fields = true →
      (ParseUrlValueToStruct lib bag (.struct typeString fields)).2 = false) ∧
    ((∀ p ∈ fields, p.1.Anonymous = false ∧ (p.1.CanSet = false ∨ unhandled p.2 = true)) →
      ParseUrlValueToStruct lib bag (.struct typeString fields)
        = (.struct typeString fields, false)) := by
  have hstep := fieldStep_untouched lib bag f v hnamed hkind
  refine ⟨?_, hstep, ?_, ?_⟩
  · rw [ParseUrlValueToStruct_struct]
    exact parseFields_frame lib bag fields i (f, v) hget (by rw [hstep])
  · intro hfree
    rw [ParseUrlValueToStruct_struct]
    exact parseFields_returns lib bag fields hfree
  · intro hall
    rw [ParseUrlValueToStruct_struct,
      parseFields_id lib bag fields
        (fun p hp => fieldStep_untouched lib bag p.1 p.2 (hall p hp).1 (hall p hp).2)]

theorem ParseUrlValueToStruct_untouched_witness :
    (ParseUrlValueToStruct demoLib demoBag demoOpaque).1.field 1
      = some (demoField "Index" "n", .other .Map 4) ∧
    fieldStep demoLib demoBag (demoField "Index" "n", .other .Map 4)
      = (.other .Map 4, false) ∧
    (fieldsPanicFree demoOpaqueFields = true →
      (ParseUrlValueToStruct demoLib demoBag demoOpaque).2 = false) ∧
    ((∀ p ∈ demoOpaqueFields,
        p.1.Anonymous = false ∧ (p.1.CanSet = false ∨ unhandled p.2 = true)) →
      ParseUrlValueToStruct demoLib demoBag demoOpaque = (demoOpaque, false)) :=
  ParseUrlValueToStruct_untouched demoLib demoBag "main.Opaque" demoOpaqueFields 1
    (demoField "Index" "n") (.other .Map 4) rfl rfl (Or.inr rfl)

/-- C15 (as stated, refuted): in `main.Shown` the field `Index` is a named map
that can be set, a kind outside the coercion table, and the field `Text` has an
interface type with one method; the call panics when it sets `Text` to the
string, so it does not complete, while `Index` holds what it held before. -/
theorem ParseUrlValueToStruct_untouched_counterexample :
    demoPanics.field 0 = some (demoField "Index" "n", .other .Map 4) ∧
    (demoField "Index" "n").Anonymous = false ∧
    (demoField "Index" "n").CanSet = true ∧
    unhandled (.other .Map 4) = true ∧
    (ParseUrlValueToStruct demoLib demoBag demoPanics).1.field 0
      = some (demoField "Index" "n", .other .Map 4) ∧
    (ParseUrlValueToStruct demoLib demoBag demoPanics).2 = true ∧
    (ParseUrlValueToStruct demoLib demoBag demoPanics).2 ≠ false := by
  refine ⟨rfl, rfl, rfl, rfl, rfl, by decide, by decide⟩

/-! ## Binding twice -/

/-- Coercing the result of a coercion under the same name gives it again. -/
theorem coerce_idem (lib : Lib) (bag : Values) (name : String) (v w : Value)
    (h : coerce lib bag name v = some w) : coerce lib bag name w = some w := by
  cases v with
  | bool b =>
    simp only [coerce, Option.some.injEq] at h
    subst h
    simp [coerce]
  | int k n =>
    simp only [coerce] at h
    split_ifs at h with hp <;> simp only [Option.some.injEq, SetInt] at h <;> subst h <;>
      simp [coerce, hp, SetInt]
  | uint k n =>
    simp only [coerce] at h
    split_ifs at h with hp <;> simp only [Option.some.injEq, SetUint] at h <;> subst h <;>
      simp [coerce, hp, SetUint]
  | float k bits =>
    simp only [coerce] at h
    cases hp : lib.parseFloat (bag.Get name) <;> simp only [hp, Option.some.injEq] at h <;>
      subst h <;> cases k <;> simp [coerce, hp, SetFloat]
  | iface numMethod dyn =>
    simp only [coerce] at h
    split_ifs at h with hp
    simp only [Option.some.injEq] at h
    subst h
    simp [coerce, hp]
  | string s =>
    simp only [coerce, Option.some.injEq] at h
    subst h
    simp [coerce]
  | time t =>
    simp only [coerce] at h
    cases hp : lib.parseTime "2006-01-02 15:04:05" (bag.Get name) <;>
      simp only [hp, Option.some.injEq] at h <;>
      subst h <;> simp [coerce, hp]
  | struct typeString fields =>
    simp only [coerce] at h
    split_ifs at h with hp
    · cases hq : lib.parseTime "2006-01-02 15:04:05" (bag.Get name) with
      | none =>
        simp only [hq, Option.some.injEq] at h
        subst h
        simp [coerce, hp, hq]
      | some t => simp [hq] at h
    · simp only [Option.some.injEq] at h
      subst h
      simp [coerce, hp]
  | intSlice xs =>
    simp only [coerce, Option.some.injEq] at h
    subst h
    simp [coerce]
  | stringSlice xs =>
    simp only [coerce, Option.some.injEq] at h
    subst h
    simp [coerce]
  | other k id =>
    simp only [coerce, Option.some.injEq] at h
    subst h
    simp [coerce]

/-- The turn of a named field, made again on its result, gives the same. -/
theorem setField_idem (lib : Lib) (bag : Values) (f : StructField) (v w : Value)
    (h : setField lib bag f v = some w) : setField lib bag f w = some w := by
  unfold setField at h ⊢
  by_cases hset : f.CanSet = true
  · by_cases htag : f.tagFrom = "-"
    · simp only [hset, htag, if_true, Option.some.injEq] at h ⊢
    · simp only [hset, htag, if_true, if_false] at h ⊢
      exact coerce_idem lib bag _ v w h
  · simp only [hset, Bool.false_eq_true, if_false, Option.some.injEq] at h ⊢

mutual
/-- Binding the result of a binding with the same bag gives the same result. -/
theorem ParseUrlValueToStruct_idem (lib : Lib) (bag : Values) :
    ∀ v : Value, ParseUrlValueToStruct lib bag (ParseUrlValueToStruct lib bag v).1
      = ParseUrlValueToStruct lib bag v
  | .struct typeString fields => by
    rw [ParseUrlValueToStruct_struct]
    dsimp only
    rw [ParseUrlValueToStruct_struct, parseFields_idem lib bag fields]
  | .bool _ => by simp [ParseUrlValueToStruct]
  | .int _ _ => by simp [ParseUrlValueToStruct]
  | .uint _ _ => by simp [ParseUrlValueToStruct]
  | .float _ _ => by simp [ParseUrlValueToStruct]
  | .iface _ _ => by simp [ParseUrlValueToStruct]
  | .string _ => by simp [ParseUrlValueToStruct]
  | .time _ => by simp [ParseUrlValueToStruct]
  | .intSlice _ => by simp [ParseUrlValueToStruct]
  | .stringSlice _ => by simp [ParseUrlValueToStruct]
  | .other _ _ => by simp [ParseUrlValueToStruct]
/-- The loop, run again on its result, gives the same result. -/
theorem parseFields_idem (lib : Lib) (bag : Values) :
    ∀ fields : List (StructField × Value),
      parseFields lib bag (parseFields lib bag fields).1 = parseFields lib bag fields
  | [] => by simp [parseFields]
  | (f, v) :: rest => by
    have hstep : fieldStep lib bag (f, (fieldStep lib bag (f, v)).1)
        = fieldStep lib bag (f, v) := by
      unfold fieldStep
      dsimp only
      by_cases hanon : f.Anonymous = true
      · simp only [hanon, if_true]
        exact ParseUrlValueToStruct_idem lib bag v
      · simp only [hanon, Bool.false_eq_true, if_false]
        cases hs : setField lib bag f v with
        | none => simp [hs]
        | some w => simp [hs, setField_idem lib bag f v w hs]
    have hrest := parseFields_idem lib bag rest
    rw [parseFields_cons]
    cases hp : (fieldStep lib bag (f, v)).2 with
    | true =>
      simp only [hp, if_true]
      rw [parseFields_cons, hstep]
      simp [hp]
    | false =>
      simp only [hp, Bool.false_eq_true, if_false]
      rw [parseFields_cons, hstep]
      simp [hp, hrest]
end

/-- C19: binding the same bag a second time leaves the target exactly as the
first binding left it (and a call that panicked panics again at the same
place); the turn of a bound named field writes a value that it writes again
whatever the field holds. -/
theorem ParseUrlValueToStruct_idempotent (lib : Lib) (bag : Values) (value : Value) :
    ParseUrlValueToStruct lib bag (ParseUrlValueToStruct lib bag value).1
      = ParseUrlValueToStruct lib bag value ∧
    (ParseUrlValueToStruct lib bag (ParseUrlValueToStruct lib bag value).1).1
      = (ParseUrlValueToStruct lib bag value).1 ∧
    (∀ f v w, setField lib bag f v = some w → setField lib bag f w = some w) :=
  ⟨ParseUrlValueToStruct_idem lib bag value,
    by rw [ParseUrlValueToStruct_idem lib bag value],
    fun f v w h => setField_idem lib bag f v w h⟩

/-! ## Parsing decimal numerals -/

theorem decimalValue_ge : ∀ (cs : List Char) (n : Nat), n ≤ decimalValue cs n
  | [], n => by simp [decimalValue]
  | c :: cs, n => by
    have := decimalValue_ge cs (n * 10 + (c.toNat - '0'.toNat))
    simp only [decimalValue]
    omega

/-- On a string of digits the loop of `ParseUint` at 64 bits reads the number
written, or reports a range error when that number does not fit. -/
theorem parseUintLoop_digits :
    ∀ (cs : List Char) (n : Nat), allDigits cs = true → n ≤ 2 ^ 64 - 1 →
      parseUintLoop (2 ^ 64 - 1) cs n
        = if decimalValue cs n ≤ 2 ^ 64 - 1 then (decimalValue cs n, none)
          else (2 ^ 64 - 1, some .ErrRange)
  | [], n, _, hn => by
    simp only [parseUintLoop, decimalValue]
    rw [if_pos hn]
  | c :: cs, n, hd, hn => by
    simp only [allDigits, List.all_cons, Bool.and_eq_true, decide_eq_true_eq] at hd
    obtain ⟨hc, hcs⟩ := hd
    have hge := decimalValue_ge cs (n * 10 + (c.toNat - '0'.toNat))
    have e64 : (2 : Nat) ^ 64 - 1 = 18446744073709551615 := by norm_num
    simp only [parseUintLoop, decimalValue, hc, and_self, if_true]
    by_cases hcut : n ≥ (2 ^ 64 - 1) / 10 + 1
    · have hbig : ¬ decimalValue cs (n * 10 + (c.toNat - '0'.toNat)) ≤ 2 ^ 64 - 1 := by
        rw [e64] at hcut ⊢
        omega
      rw [if_pos hcut, if_neg hbig]
    · rw [if_neg hcut]
      by_cases hov : n * 10 + (c.toNat - '0'.toNat) > 2 ^ 64 - 1
      · have hbig : ¬ decimalValue cs (n * 10 + (c.toNat - '0'.toNat)) ≤ 2 ^ 64 - 1 := by
          omega
        rw [if_pos hov, if_neg hbig]
      · rw [if_neg hov]
        exact parseUintLoop_digits cs _ hcs (by omega)

/-- The call `ParseUint(s, 10, 64)` on a decimal numeral. -/
theorem ParseUint_digits (ds : List Char) (hd : allDigits ds = true) (hne : ds ≠ []) :
    ParseUint ds 64
      = if decimalValue ds 0 < 2 ^ 64 then (decimalValue ds 0, none)
        else (2 ^ 64 - 1, some .ErrRange) := by
  cases ds with
  | nil => exact absurd rfl hne
  | cons c cs =>
    simp only [ParseUint]
    rw [parseUintLoop_digits (c :: cs) 0 hd (Nat.zero_le _)]
    have e64 : (2 : Nat) ^ 64 - 1 = 18446744073709551615 := by norm_num
    have e64b : (2 : Nat) ^ 64 = 18446744073709551616 := by norm_num
    by_cases h : decimalValue (c :: cs) 0 < 2 ^ 64
    · have h2 : decimalValue (c :: cs) 0 ≤ 2 ^ 64 - 1 := by rw [e64]; rw [e64b] at h; omega
      rw [if_pos h, if_pos h2]
    · have h2 : ¬ decimalValue (c :: cs) 0 ≤ 2 ^ 64 - 1 := by rw [e64]; rw [e64b] at h; omega
      rw [if_neg h, if_neg h2]

/-- The call `ParseInt(s, 10, 64)` on a decimal numeral without sign. -/
theorem ParseInt_digits (ds : List Char) (hd : allDigits ds = true) (hne : ds ≠ []) :
    ParseInt ds 64
      = if decimalValue ds 0 < 2 ^ 63 then (((decimalValue ds 0 : Nat) : Int), none)
        else ((2 ^ 63 - 1 : Int), some NumError.ErrRange) := by
  have hu := ParseUint_digits ds hd hne
  cases ds with
  | nil => exact absurd rfl hne
  | cons c cs =>
    have hc : '0' ≤ c ∧ c ≤ '9' := by
      simp only [allDigits, List.all_cons, Bool.and_eq_true, decide_eq_true_eq] at hd
      exact hd.1
    have hplus : c ≠ '+' := by
      rintro rfl
      exact absurd hc.1 (by decide)
    have hminus : c ≠ '-' := by
      rintro rfl
      exact absurd hc.1 (by decide)
    have hneg : (c == '-') = false := by simpa using hminus
    have e63 : (2 : Nat) ^ 63 = 9223372036854775808 := by norm_num
    have e63b : (2 : Nat) ^ (64 - 1) = 9223372036854775808 := by norm_num
    have e64 : (2 : Nat) ^ 64 = 18446744073709551616 := by norm_num
    simp only [ParseInt, hplus, hminus, or_self, if_false, hu, hneg, e63, e63b, e64]
    by_cases h63 : decimalValue (c :: cs) 0 < 9223372036854775808
    · have h64 : decimalValue (c :: cs) 0 < 18446744073709551616 := by omega
      have hge : ¬ decimalValue (c :: cs) 0 ≥ 9223372036854775808 := by omega
      simp [h63, h64, hge]
    · by_cases h64 : decimalValue (c :: cs) 0 < 18446744073709551616
      · have hge : decimalValue (c :: cs) 0 ≥ 9223372036854775808 := by omega
        simp [h63, h64, hge]
      · simp [h63, h64]

/-- The call `ParseInt(s, 10, 64)` on a decimal numeral with a minus sign. -/
theorem ParseInt_minus_digits (ds : List Char) (hd : allDigits ds = true) (hne : ds ≠ []) :
    ParseInt ('-' :: ds) 64
      = if decimalValue ds 0 ≤ 2 ^ 63 then (-((decimalValue ds 0 : Nat) : Int), none)
        else (-(2 ^ 63 : Int), some NumError.ErrRange) := by
  have hu := ParseUint_digits ds hd hne
  have e63 : (2 : Nat) ^ 63 = 9223372036854775808 := by norm_num
  have e63b : (2 : Nat) ^ (64 - 1) = 9223372036854775808 := by norm_num
  have e64 : (2 : Nat) ^ 64 = 18446744073709551616 := by norm_num
  simp only [ParseInt, or_true, if_true, hu, e63, e63b, e64]
  by_cases h63 : decimalValue ds 0 ≤ 9223372036854775808
  · have h64 : decimalValue ds 0 < 18446744073709551616 := by omega
    have hgt : ¬ decimalValue ds 0 > 9223372036854775808 := by omega
    simp [h63, h64, hgt]
  · by_cases h64 : decimalValue ds 0 < 18446744073709551616
    · have hgt : decimalValue ds 0 > 9223372036854775808 := by omega
      simp [h63, h64, hgt]
    · simp [h63, h64]

/-- The conversion to `bits` bits yields the number of that width that is
congruent to the argument modulo `2 ^ bits`. -/
theorem wrapInt_spec (bits : Nat) (x : Int) (hbits : 0 < bits) :
    -(2 : Int) ^ (bits - 1) ≤ wrapInt bits x ∧ wrapInt bits x < 2 ^ (bits - 1) ∧
      (wrapInt bits x - x) % 2 ^ bits = 0 := by
  unfold wrapInt
  have hpow : (2 : Int) ^ bits = 2 * 2 ^ (bits - 1) := by
    obtain ⟨n, rfl⟩ : ∃ n, bits = n + 1 := ⟨bits - 1, by omega⟩
    simp [pow_succ, mul_comm]
  have hpos : (0 : Int) < 2 ^ (bits - 1) := by positivity
  have h1 := Int.emod_nonneg (x + 2 ^ (bits - 1)) (show (2 : Int) ^ bits ≠ 0 by positivity)
  have h2 := Int.emod_lt_of_pos (x + 2 ^ (bits - 1)) (show (0 : Int) < 2 ^ bits by positivity)
  refine ⟨by omega, by omega, ?_⟩
  have h3 := Int.emod_add_ediv (x + 2 ^ (bits - 1)) (2 ^ bits)
  have : (x + 2 ^ (bits - 1)) % 2 ^ bits - 2 ^ (bits - 1) - x
      = 2 ^ bits * (-((x + 2 ^ (bits - 1)) / 2 ^ bits)) := by
    rw [mul_neg]
    omega
  rw [this]
  exact Int.mul_emod_right _ _

/-! ## Integer fields of every width -/

/-- The coercion of a signed integer field. -/
theorem coerce_int (lib : Lib) (bag : Values) (name : String) (k : IntKind) (old : Int) :
    coerce lib bag name (.int k old)
      = some (.int k (if (ParseInt (bag.Get name).data 64).2 = none
          then wrapInt k.bits (ParseInt (bag.Get name).data 64).1 else 0)) := by
  have hbits : 0 < k.bits := by cases k <;> simp [IntKind.bits, intSize]
  have hzero : wrapInt k.bits 0 = 0 :=
    wrapInt_of_fits k.bits 0 hbits (by simp) (by positivity)
  simp only [coerce, SetInt]
  split_ifs
  · rfl
  · rw [hzero]

/-- The coercion of an unsigned integer field. -/
theorem coerce_uint (lib : Lib) (bag : Values) (name : String) (k : UintKind) (old : Nat) :
    coerce lib bag name (.uint k old)
      = some (.uint k (if (ParseUint (bag.Get name).data 64).2 = none
          then (ParseUint (bag.Get name).data 64).1 % 2 ^ k.bits else 0)) := by
  simp only [coerce, SetUint]
  split_ifs
  · rfl
  · simp

/-- C20 (amended): for a named integer field that can be set and is not tagged
`-`, after a call that returns: the raw value is parsed at 64 bits whatever the
width `w` of the field, with `ParseInt` for a signed kind and with `ParseUint`,
which takes no sign, for an unsigned kind; when it parses as `n` the field
holds `n` reduced modulo `2 ^ w` (for a signed kind the number of `w` bits in
two's complement that is congruent to `n`); when it does not parse the field
holds 0. A decimal numeral (for a signed kind also with a minus sign) fails to
parse exactly when it lies outside the 64-bit range of the kind, and a raw
value with a sign gives 0 in an unsigned field. -/
theorem ParseUrlValueToStruct_narrow (lib : Lib) (bag : Values) (typeString : String)
    (fields : List (StructField × Value)) (i : Nat) (f : StructField) (v : Value)
    (hget : fields[i]? = some (f, v))
    (hnamed : f.Anonymous = false) (hset : f.CanSet = true) (htag : f.tagFrom ≠ "-")
    (hret : (ParseUrlValueToStruct lib bag (.struct typeString fields)).2 = false) :
    (∀ k old, v = .int k old →
      ∃ r, (ParseUrlValueToStruct lib bag (.struct typeString fields)).1.field i
          = some (f, .int k r) ∧
        (∀ n, ParseInt (bag.Get (sourceName f)).data 64 = (n, none) →
          r = wrapInt k.bits n ∧ -(2 : Int) ^ (k.bits - 1) ≤ r ∧ r < 2 ^ (k.bits - 1) ∧
            (r - n) % 2 ^ k.bits = 0) ∧
        ((ParseInt (bag.Get (sourceName f)).data 64).2 ≠ none → r = 0) ∧
        (∀ ds, allDigits ds = true → ds ≠ [] → (bag.Get (sourceName f)).data = ds →
          r = if decimalValue ds 0 < 2 ^ 63 then wrapInt k.bits (decimalValue ds 0) else 0) ∧
        (∀ ds, allDigits ds = true → ds ≠ [] → (bag.Get (sourceName f)).data = '-' :: ds →
          r = if decimalValue ds 0 ≤ 2 ^ 63 then wrapInt k.bits (-(decimalValue ds 0 : Nat))
            else 0)) ∧
    (∀ k old, v = .uint k old →
      ∃ r, (ParseUrlValueToStruct lib bag (.struct typeString fields)).1.field i
          = some (f, .uint k r) ∧
        (∀ n, ParseUint (bag.Get (sourceName f)).data 64 = (n, none) → r = n % 2 ^ k.bits) ∧
        ((ParseUint (bag.Get (sourceName f)).data 64).2 ≠ none → r = 0) ∧
        (∀ ds, allDigits ds = true → ds ≠ [] → (bag.Get (sourceName f)).data = ds →
          r = if decimalValue ds 0 < 2 ^ 64 then decimalValue ds 0 % 2 ^ k.bits else 0) ∧
        (∀ cs, (bag.Get (sourceName f)).data = '-' :: cs ∨
            (bag.Get (sourceName f)).data = '+' :: cs → r = 0)) := by
  have hfield := ParseUrlValueToStruct_field lib bag typeString fields i _ hret hget
  rw [fieldStep_bound lib bag f _ hnamed hset htag] at hfield
  constructor
  · intro k old hv
    subst hv
    rw [coerce_int] at hfield
    have hbits : 0 < k.bits := by cases k <;> simp [IntKind.bits, intSize]
    refine ⟨_, hfield, ?_, ?_, ?_, ?_⟩
    · intro n hn
      rw [hn]
      exact ⟨rfl, wrapInt_spec k.bits n hbits⟩
    · intro herr
      rw [if_neg herr]
    · intro ds hd hne hdata
      rw [hdata, ParseInt_digits ds hd hne]
      by_cases h : decimalValue ds 0 < 2 ^ 63
      · rw [if_pos h, if_pos h]
        rfl
      · rw [if_neg h, if_neg h]
        rfl
    · intro ds hd hne hdata
      rw [hdata, ParseInt_minus_digits ds hd hne]
      by_cases h : decimalValue ds 0 ≤ 2 ^ 63
      · rw [if_pos h, if_pos h]
        rfl
      · rw [if_neg h, if_neg h]
        rfl
  · intro k old hv
    subst hv
    rw [coerce_uint] at hfield
    refine ⟨_, hfield, ?_, ?_, ?_, ?_⟩
    · intro n hn
      rw [hn]
      rfl
    · intro herr
      rw [if_neg herr]
    · intro ds hd hne hdata
      rw [hdata, ParseUint_digits ds hd hne]
      by_cases h : decimalValue ds 0 < 2 ^ 64
      · rw [if_pos h, if_pos h]
        rfl
      · rw [if_neg h, if_neg h]
        rfl
    · intro cs hsign
      have herr : (ParseUint (bag.Get (sourceName f)).data 64).2 ≠ none := by
        rcases hsign with h | h
        · rw [h]
          simp only [ParseUint, parseUintLoop]
          rw [if_neg (by decide)]
          simp
        · rw [h]
          simp only [ParseUint, parseUintLoop]
          rw [if_neg (by decide)]
          simp
      rw [if_neg herr]

theorem ParseUrlValueToStruct_narrow_witness :
    (∀ k old, Value.int .Int8 5 = .int k old →
      ∃ r, (ParseUrlValueToStruct demoLib demoBag demoStruct).1.field 0
          = some (demoField "Small" "n", .int k r) ∧
        (∀ n, ParseInt (demoBag.Get (sourceName (demoField "Small" "n"))).data 64 = (n, none) →
          r = wrapInt k.bits n ∧ -(2 : Int) ^ (k.bits - 1) ≤ r ∧ r < 2 ^ (k.bits - 1) ∧
            (r - n) % 2 ^ k.bits = 0)) ∧
    ParseInt (demoBag.Get (sourceName (demoField "Small" "n"))).data 64 = (300, none) ∧
    wrapInt IntKind.Int8.bits 300 = 44 ∧
    (ParseUrlValueToStruct demoLib demoBag demoStruct).1.field 0
      = some (demoField "Small" "n", .int .Int8 44) ∧
    (ParseUrlValueToStruct demoLib demoBag
      (.struct "main.Bytes" [(demoField "B" "n", .uint .Uint8 1),
        (demoField "Huge" "big", .int .Int32 1)])).1
      = .struct "main.Bytes" [(demoField "B" "n", .uint .Uint8 44),
        (demoField "Huge" "big", .int .Int32 0)] :=
  ⟨fun k old hv =>
      ((ParseUrlValueToStruct_narrow demoLib demoBag "main.Outer" _ 0 (demoField "Small" "n")
        (.int .Int8 5) rfl rfl rfl (by decide) (by decide)).1 k old hv).imp
        (fun _ h => ⟨h.1, h.2.1⟩),
    by decide, by decide, rfl, rfl⟩

/-- C20 (as stated, refuted): `"256"` parses as the 64-bit integer 256 and the
`int8` field `A` holds 0 after the call, so 0 is not kept for values outside
the 64-bit range; `"-1"` and `"+5"` parse as the 64-bit integers -1 and 5, yet
the `uint8` fields `B` and `C` hold 0, not 255 and 5. -/
theorem ParseUrlValueToStruct_narrow_counterexample :
    ParseInt (demoBag.Get "small").data 64 = (256, none) ∧
    ParseInt (demoBag.Get "minus").data 64 = (-1, none) ∧
    ParseInt (demoBag.Get "plus").data 64 = (5, none) ∧
    (ParseUrlValueToStruct demoLib demoBag demoNarrow).2 = false ∧
    (ParseUrlValueToStruct demoLib demoBag demoNarrow).1
      = .struct "main.Narrow"
          [ (demoField "A" "small", .int .Int8 0),
            (demoField "B" "minus", .uint .Uint8 0),
            (demoField "C" "plus", .uint .Uint8 0) ] ∧
    ((-1 : Int) % 2 ^ UintKind.Uint8.bits = 255 ∧ (5 : Int) % 2 ^ UintKind.Uint8.bits = 5) ∧
    (ParseUrlValueToStruct demoLib demoBag demoNarrow).1.field 1
      ≠ some (demoField "B" "minus", .uint .Uint8 255) := by
  refine ⟨by decide, by decide, by decide, by decide, rfl, by decide, ?_⟩
  rw [show (ParseUrlValueToStruct demoLib demoBag demoNarrow).1.field 1
      = some (demoField "B" "minus", .uint .Uint8 0) from rfl]
  intro h
  injection h with h
  injection h with _ h
  injection h with _ h
  exact absurd h (by decide)

/-! ## mapStructToMap -/

theorem assignAll_cons (e : String × Value) (es : List (String × Value)) (data : DataMap) :
    assignAll (e :: es) data = assignAll es (data.set (.str e.1) e.2) := rfl

theorem assignAll_append (a b : List (String × Value)) (data : DataMap) :
    assignAll (a ++ b) data = assignAll b (assignAll a data) := by
  simp [assignAll, List.foldl_append]

/-- A key that no assignment names keeps its value. -/
theorem assignAll_of_not_mem :
    ∀ (es : List (String × Value)) (data : DataMap) (key : Dyn),
      (∀ e ∈ es, Dyn.str e.1 ≠ key) → assignAll es data key = data key
  | [], _, _, _ => rfl
  | e :: es, data, key, h => by
    rw [assignAll_cons, assignAll_of_not_mem es _ key (fun e2 h2 => h e2 (List.mem_cons_of_mem _ h2))]
    have hne : key ≠ Dyn.str e.1 := fun hk => h e (by simp) hk.symm
    simp [DataMap.set, hne]

/-- The last assignment to a key decides its value. -/
theorem assignAll_last (pre post : List (String × Value)) (k : String) (v : Value)
    (data : DataMap) (hpost : ∀ e ∈ post, e.1 ≠ k) :
    assignAll (pre ++ (k, v) :: post) data (.str k) = some v := by
  rw [assignAll_append, assignAll_cons,
    assignAll_of_not_mem post _ (.str k) (fun e he h => hpost e he (by simpa using h))]
  simp [DataMap.set]

mutual
/-- The function `mapStructToMap` makes the assignments of the named fields
that can be interfaced, in order, descending into the anonymous fields that can
be interfaced. -/
theorem mapStructToMap_eq : ∀ (value : Value) (data : DataMap),
    mapStructToMap value data = assignAll (interfacedEntries value) data
  | .struct _ fields, data => by
    rw [mapStructToMap, interfacedEntries]
    exact mapFields_eq fields data
  | .bool _, _ => by simp [mapStructToMap, interfacedEntries, assignAll]
  | .int _ _, _ => by simp [mapStructToMap, interfacedEntries, assignAll]
  | .uint _ _, _ => by simp [mapStructToMap, interfacedEntries, assignAll]
  | .float _ _, _ => by simp [mapStructToMap, interfacedEntries, assignAll]
  | .iface _ _, _ => by simp [mapStructToMap, interfacedEntries, assignAll]
  | .string _, _ => by simp [mapStructToMap, interfacedEntries, assignAll]
  | .time _, _ => by simp [mapStructToMap, interfacedEntries, assignAll]
  | .intSlice _, _ => by simp [mapStructToMap, interfacedEntries, assignAll]
  | .stringSlice _, _ => by simp [mapStructToMap, interfacedEntries, assignAll]
  | .other _ _, _ => by simp [mapStructToMap, interfacedEntries, assignAll]
/-- The loop of `mapStructToMap`, as a list of assignments. -/
theorem mapFields_eq : ∀ (fields : List (StructField × Value)) (data : DataMap),
    mapFields fields data = assignAll (interfacedFieldEntries fields) data
  | [], data => by simp [mapFields, interfacedFieldEntries, assignAll]
  | (f, v) :: rest, data => by
    rw [mapFields, interfacedFieldEntries]
    by_cases hcan : f.CanInterface = true
    · by_cases hanon : f.Anonymous = true
      · simp only [hcan, hanon, if_true]
        rw [assignAll_append, mapFields_eq rest, mapStructToMap_eq v data]
      · simp only [hcan, hanon, if_true, Bool.false_eq_true, if_false]
        rw [assignAll_cons, mapFields_eq rest]
    · simp only [hcan, Bool.false_eq_true, if_false]
      exact mapFields_eq rest data
end

mutual
/-- When every anonymous field can be interfaced, the described assignments
are the ones made. -/
theorem describedEntries_eq : ∀ (value : Value), embedsInterfaced value = true →
    describedEntries value = interfacedEntries value
  | .struct _ fields, h => by
    rw [embedsInterfaced] at h
    rw [describedEntries, interfacedEntries]
    exact describedFieldEntries_eq fields h
  | .bool _, _ => by simp [describedEntries, interfacedEntries]
  | .int _ _, _ => by simp [describedEntries, interfacedEntries]
  | .uint _ _, _ => by simp [describedEntries, interfacedEntries]
  | .float _ _, _ => by simp [describedEntries, interfacedEntries]
  | .iface _ _, _ => by simp [describedEntries, interfacedEntries]
  | .string _, _ => by simp [describedEntries, interfacedEntries]
  | .time _, _ => by simp [describedEntries, interfacedEntries]
  | .intSlice _, _ => by simp [describedEntries, interfacedEntries]
  | .stringSlice _, _ => by simp [describedEntries, interfacedEntries]
  | .other _ _, _ => by simp [describedEntries, interfacedEntries]
/-- The same for a list of fields. -/
theorem describedFieldEntries_eq : ∀ (fields : List (StructField × Value)),
    fieldsEmbedInterfaced fields = true →
    describedFieldEntries fields = interfacedFieldEntries fields
  | [], _ => by simp [describedFieldEntries, interfacedFieldEntries]
  | (f, v) :: rest, h => by
    rw [fieldsEmbedInterfaced, Bool.and_eq_true] at h
    rw [describedFieldEntries, interfacedFieldEntries, describedFieldEntries_eq rest h.2]
    by_cases hanon : f.Anonymous = true
    · have h1 := h.1
      simp only [hanon, if_true, Bool.and_eq_true] at h1
      simp only [hanon, if_true, h1.1]
      rw [describedEntries_eq v h1.2]
    · by_cases hcan : f.CanInterface = true
      · simp [hanon, hcan]
      · simp [hanon, hcan]
end

/-- What the code does: `mapStructToMap` yields the map obtained from `data` by
assigning, in declaration order and descending depth-first into the anonymous
struct fields that can be interfaced, `key -> field value` for each named field
that can be interfaced, where `key` is the `to` tag or the name of the field
when that tag is empty; the last assignment to a key decides its value, a key
that no assignment names keeps its value, and on a value that is not a struct
the map is unchanged. When every anonymous field can be interfaced these are
the assignments of every named field that can be interfaced. -/
theorem mapStructToMap_assigns (value : Value) (data : DataMap) :
    mapStructToMap value data = assignAll (interfacedEntries value) data ∧
    (embedsInterfaced value = true →
      mapStructToMap value data = assignAll (describedEntries value) data) ∧
    (∀ pre k v post, interfacedEntries value = pre ++ (k, v) :: post →
      (∀ e ∈ post, e.1 ≠ k) → mapStructToMap value data (.str k) = some v) ∧
    (∀ key, (∀ e ∈ interfacedEntries value, Dyn.str e.1 ≠ key) →
      mapStructToMap value data key = data key) ∧
    ((∀ typeString fields, value ≠ .struct typeString fields) →
      mapStructToMap value data = data) := by
  refine ⟨mapStructToMap_eq value data, ?_, ?_, ?_, ?_⟩
  · intro h
    rw [describedEntries_eq value h]
    exact mapStructToMap_eq value data
  · intro pre k v post hsplit hpost
    rw [mapStructToMap_eq, hsplit]
    exact assignAll_last pre post k v data hpost
  · intro key hkey
    rw [mapStructToMap_eq]
    exact assignAll_of_not_mem _ data key hkey
  · intro hns
    cases value with
    | struct ts fs => exact absurd rfl (hns ts fs)
    | _ => simp [mapStructToMap]

/-- C18 (the code at the failing input): `main.Page` embeds the unexported
struct `inner`, whose exported field `X` can be interfaced while the embedded
field itself cannot. The assignments of every named field that can be
interfaced include `X -> 1`, but `mapStructToMap` skips the embedded field and
leaves the key `X` absent; the later field `Id` of the embedded `Base`
overrides the earlier `Id` under the key `id`. The sibling
`ParseUrlValueToStruct` does reach `X` and resets it to 0. -/
theorem mapStructToMap_skips_embedded :
    describedEntries demoMapped
      = [("X", .int .Int 1), ("id", .int .Int 2), ("id", .int .Int 3)] ∧
    assignAll (describedEntries demoMapped) emptyData (.str "X") = some (.int .Int 1) ∧
    mapStructToMap demoMapped emptyData (.str "X") = none ∧
    mapStructToMap demoMapped emptyData (.str "id") = some (.int .Int 3) ∧
    mapStructToMap demoMapped emptyData (.str "X")
      ≠ assignAll (describedEntries demoMapped) emptyData (.str "X") ∧
    (ParseUrlValueToStruct demoLib demoBag demoMapped).1.field 0
      = some (⟨"inner", true, "", "", false, false⟩,
          .struct "main.inner" [(⟨"X", false, "", "", true, true⟩, .int .Int 0)]) := by
  refine ⟨rfl, rfl, rfl, rfl, ?_, rfl⟩
  rw [show mapStructToMap demoMapped emptyData (.str "X") = none from rfl,
    show assignAll (describedEntries demoMapped) emptyData (.str "X")
      = some (.int .Int 1) from rfl]
  intro h
  cases h

end Tinygo
